import Mathlib

/-!
# static/js/marketplace.js

A shallow embedding of the page script `static/js/marketplace.js`.

* Part 1 models the values the script computes with: JavaScript Numbers
  (IEEE 754 binary64 with round-to-nearest-even) and the built-ins the script
  calls on them (`parseFloat`, `parseInt`, `+`, `*`, `<`, `>`, `||`,
  `Number.prototype.toFixed`, Number-to-String conversion).
* Part 2 models the document: an ordered forest of text and element nodes,
  element references as child-index paths, `querySelector` and
  `querySelectorAll` as pre-order searches.
* Part 3 embeds the functions of the script, statement by statement.
* Part 4 states and proves the properties.
-/

set_option exponentiation.threshold 5000

namespace JS

/-! ## Part 1: JavaScript Numbers -/

/-- The least positive double is `2 ^ -1074`; every finite double is a whole
number of these units. -/
def unit : Nat := 2 ^ 1074

/-- Magnitudes (in units) from this bound on are not finite doubles:
`2 ^ 2098` units is `2 ^ 1024`. -/
def overflow : Nat := 2 ^ 2098

/-- A JavaScript Number. A finite value is a sign and a magnitude counted in
units of `2 ^ -1074`, so `fin false unit` is 1, `fin true 0` is -0 and
`fin false 1` is the least positive (subnormal) double. -/
inductive Number where
  | nan : Number
  | inf (neg : Bool) : Number
  | fin (neg : Bool) (mag : Nat) : Number
  deriving DecidableEq, Repr

/-- Number of binary digits of `n` (0 for 0), by halving; the first argument
bounds the number of halvings. -/
def bitLenAux : Nat → Nat → Nat
  | 0, _ => 0
  | f + 1, n => if n = 0 then 0 else bitLenAux f (n / 2) + 1

/-- Number of binary digits of `n`: `2 ^ (bitLen n - 1) ≤ n < 2 ^ bitLen n`
for positive `n`. -/
def bitLen (n : Nat) : Nat := bitLenAux n n

/-- The integer nearest to `p / q`, the even one of the two on a tie. -/
def roundHalfEven (p q : Nat) : Nat :=
  let f := p / q
  let r := p % q
  if 2 * r < q then f
  else if q < 2 * r then f + 1
  else if f % 2 = 0 then f else f + 1

/-- The magnitude `p / q` (in units) rounded to 53 significant bits, ties to
even: below `2 ^ 53` units doubles are one unit apart, and a magnitude with
`53 + s` binary digits is rounded to a multiple of `2 ^ s`. -/
def roundMag (p q : Nat) : Nat :=
  let s := bitLen (p / q) - 53
  roundHalfEven p (q * 2 ^ s) * 2 ^ s

/-- The double nearest to the signed magnitude `p / q` units. -/
def ofRatio (neg : Bool) (p q : Nat) : Number :=
  let m := roundMag p q
  if overflow ≤ m then Number.inf neg else Number.fin neg m

/-- The double nearest to `± d * 10 ^ e`. -/
def ofDecimal (neg : Bool) (d : Nat) (e : Int) : Number :=
  ofRatio neg (d * 10 ^ e.toNat * unit) (10 ^ (-e).toNat)

/-- The double nearest to the integer `z`. -/
def ofInt (z : Int) : Number :=
  ofRatio (decide (z < 0)) (z.natAbs * unit) 1

/-- The Number `+0`. -/
def zero : Number := Number.fin false 0

/-- The Number `1`. -/
def one : Number := Number.fin false unit

/-- Number addition, `x + y`. -/
def add : Number → Number → Number
  | Number.nan, _ => Number.nan
  | _, Number.nan => Number.nan
  | Number.inf a, Number.inf b => if a = b then Number.inf a else Number.nan
  | Number.inf a, Number.fin _ _ => Number.inf a
  | Number.fin _ _, Number.inf b => Number.inf b
  | Number.fin a m, Number.fin b n =>
    if a = b then ofRatio a (m + n) 1
    else if m = n then Number.fin false 0
    else if n < m then ofRatio a (m - n) 1
    else ofRatio b (n - m) 1

/-- Number multiplication, `x * y`. -/
def mul : Number → Number → Number
  | Number.nan, _ => Number.nan
  | _, Number.nan => Number.nan
  | Number.inf a, Number.inf b => Number.inf (a != b)
  | Number.inf a, Number.fin b n => if n = 0 then Number.nan else Number.inf (a != b)
  | Number.fin a m, Number.inf b => if m = 0 then Number.nan else Number.inf (a != b)
  | Number.fin a m, Number.fin b n => ofRatio (a != b) (m * n) unit

/-- Position of a Number that is not NaN on the extended line, in units
(both zeros at 0, the infinities beyond every finite magnitude). -/
def position : Number → Option Int
  | Number.nan => none
  | Number.inf false => some (overflow : Int)
  | Number.inf true => some (-(overflow : Int))
  | Number.fin false m => some (m : Int)
  | Number.fin true m => some (-(m : Int))

/-- The comparison `x < y`: false when either side is NaN. -/
def lt (x y : Number) : Bool :=
  match position x, position y with
  | some a, some b => decide (a < b)
  | _, _ => false

/-- The comparison `x > y`. -/
def gt (x y : Number) : Bool := lt y x

/-- ToBoolean on a Number: NaN, `+0` and `-0` are falsy. -/
def toBoolean : Number → Bool
  | Number.nan => false
  | Number.inf _ => true
  | Number.fin _ m => decide (m ≠ 0)

/-- The expression `x || d` on Numbers. -/
def orElse (x d : Number) : Number := if toBoolean x then x else d

/-- ToBoolean on a string-valued property that may be `undefined`. -/
def truthy : Option String → Bool
  | none => false
  | some s => decide (s ≠ "")

/-- ToString on a string-valued property that may be `undefined`. -/
def toStr : Option String → String
  | none => "undefined"
  | some s => s

/-! ### Strings to Numbers -/

/-- WhiteSpace and LineTerminator code points, the ones `parseFloat` and
`parseInt` skip at the start of their argument. -/
def isWhiteSpace (c : Char) : Bool :=
  let n := c.toNat
  n = 9 || n = 10 || n = 11 || n = 12 || n = 13 || n = 32 || n = 160 || n = 5760 ||
  (8192 ≤ n && n ≤ 8202) || n = 8232 || n = 8233 || n = 8239 || n = 8287 ||
  n = 12288 || n = 65279

/-- The argument without its leading white space. -/
def trimStart (s : List Char) : List Char := s.dropWhile isWhiteSpace

/-- Decimal digit characters. -/
def isDigit (c : Char) : Bool := 48 ≤ c.toNat && c.toNat ≤ 57

/-- Value of a hexadecimal digit character. -/
def hexValue (c : Char) : Option Nat :=
  let n := c.toNat
  if 48 ≤ n && n ≤ 57 then some (n - 48)
  else if 97 ≤ n && n ≤ 102 then some (n - 87)
  else if 65 ≤ n && n ≤ 70 then some (n - 55)
  else none

/-- Value of a string of digits in the given radix. -/
def digitsValue (radix : Nat) (ds : List Char) : Nat :=
  ds.foldl (fun a c => a * radix + (hexValue c).getD 0) 0

/-- The value of the ExponentPart at the head of the string, 0 when there is
none (an `e` that no digit follows is not part of the literal). -/
def exponentPart : List Char → Int
  | [] => 0
  | c :: rest =>
    if c = 'e' ∨ c = 'E' then
      match rest with
      | '+' :: ds =>
        (digitsValue 10 (ds.takeWhile isDigit) : Int)
      | '-' :: ds =>
        -(digitsValue 10 (ds.takeWhile isDigit) : Int)
      | ds => (digitsValue 10 (ds.takeWhile isDigit) : Int)
    else 0

/-- The Number of the longest prefix that is a StrUnsignedDecimalLiteral,
NaN when no prefix is one. -/
def strUnsignedDecimalLiteral (neg : Bool) (s : List Char) : Number :=
  if "Infinity".data.isPrefixOf s then Number.inf neg
  else
    let ip := s.takeWhile isDigit
    let r1 := s.dropWhile isDigit
    let fp := match r1 with
      | '.' :: t => t.takeWhile isDigit
      | _ => []
    let r2 := match r1 with
      | '.' :: t => t.dropWhile isDigit
      | _ => r1
    if ip = [] ∧ fp = [] then Number.nan
    else ofDecimal neg (digitsValue 10 (ip ++ fp)) (exponentPart r2 - fp.length)

/-- The global function `parseFloat` on a string. -/
def parseFloat (s : String) : Number :=
  match trimStart s.data with
  | '+' :: r => strUnsignedDecimalLiteral false r
  | '-' :: r => strUnsignedDecimalLiteral true r
  | r => strUnsignedDecimalLiteral false r

/-- The digits of an integer literal in the given radix, read as far as they
go: NaN when there is none. -/
def parseDigits (neg : Bool) (radix : Nat) (s : List Char) : Number :=
  let z := s.takeWhile (fun c => match hexValue c with
    | some v => decide (v < radix)
    | none => false)
  if z = [] then Number.nan else ofRatio neg (digitsValue radix z * unit) 1

/-- The integer `parseInt` reads after the sign: radix 16 after `0x` or
`0X`, radix 10 otherwise. -/
def parseUnsigned (neg : Bool) : List Char → Number
  | '0' :: 'x' :: r => parseDigits neg 16 r
  | '0' :: 'X' :: r => parseDigits neg 16 r
  | r => parseDigits neg 10 r

/-- The global function `parseInt` on a string, called without a radix. -/
def parseInt (s : String) : Number :=
  match trimStart s.data with
  | '+' :: r => parseUnsigned false r
  | '-' :: r => parseUnsigned true r
  | r => parseUnsigned false r

/-! ### Numbers to Strings -/

/-- For `p < q`: the number of zeros between the decimal point and the first
non-zero digit of `p / q`. -/
def leadingZeros : Nat → Nat → Nat → Nat
  | 0, _, _ => 0
  | f + 1, p, q => if q ≤ p * 10 then 0 else leadingZeros f (p * 10) q + 1

/-- For positive `p / q`: the `e` with `10 ^ (e - 1) ≤ p / q < 10 ^ e`. -/
def decExp (p q : Nat) : Int :=
  if q ≤ p then ((Nat.toDigits 10 (p / q)).length : Int)
  else -(leadingZeros 400 p q : Int)

/-- Whether the decimal `c * 10 ^ t` converts to the double of magnitude `N`. -/
def roundTrips (N c : Nat) (t : Int) : Bool :=
  decide (ofDecimal false c t = Number.fin false N)

/-- The `k`-digit decimal with exponent `e` that converts to the double of
magnitude `N`, if there is one: of the two `k`-digit neighbours of the value
the one that converts back, the nearer one when both do, the even one on a
tie. -/
def candidate (N : Nat) (e : Int) (k : Nat) : Option Nat :=
  let t := e - (k : Int)
  let num := N * 10 ^ (-t).toNat
  let den := unit * 10 ^ t.toNat
  let lo := num / den
  let r := num % den
  let hi := lo + 1
  if roundTrips N lo t then
    if roundTrips N hi t then
      if 2 * r < den then some lo
      else if den < 2 * r then some hi
      else if lo % 2 = 0 then some lo else some hi
    else some lo
  else if roundTrips N hi t then some hi
  else none

/-- The least number of digits `k`, from the given one on, for which a
`k`-digit decimal converts to the double of magnitude `N`, with its digits.
The first argument bounds the search; 17 digits are enough for every double,
and a search that used up its bound gives the value cut to `k` digits. -/
def shortestFrom (N : Nat) (e : Int) : Nat → Nat → Nat × Nat
  | 0, k => (N * 10 ^ ((k : Int) - e).toNat / (unit * 10 ^ (e - (k : Int)).toNat), k)
  | f + 1, k =>
    match candidate N e k with
    | some n => (n, k)
    | none => shortestFrom N e f (k + 1)

/-- The text of a positive finite Number whose shortest decimal is the `k`
digits `ds` with `10 ^ (e - 1) ≤ value < 10 ^ e`. -/
def layout (ds : List Char) (k : Nat) (e : Int) : List Char :=
  if (k : Int) ≤ e ∧ e ≤ 21 then ds ++ List.replicate (e - (k : Int)).toNat '0'
  else if 0 < e ∧ e ≤ 21 then ds.take e.toNat ++ '.' :: ds.drop e.toNat
  else if -6 < e ∧ e ≤ 0 then '0' :: '.' :: List.replicate (-e).toNat '0' ++ ds
  else
    let tail := 'e' :: (if e - 1 < 0 then '-' else '+') :: Nat.toDigits 10 (e - 1).natAbs
    if k = 1 then ds ++ tail else ds.take 1 ++ '.' :: ds.drop 1 ++ tail

/-- The text of a positive finite Number of magnitude `N`. -/
def magToString (N : Nat) : List Char :=
  let e := decExp N unit
  let nk := shortestFrom N e 17 1
  if nk.1 = 10 ^ nk.2 then layout (Nat.toDigits 10 (10 ^ (nk.2 - 1))) nk.2 (e + 1)
  else layout (Nat.toDigits 10 nk.1) nk.2 e

/-- Number-to-String conversion (radix 10). -/
def toString : Number → String
  | Number.nan => "NaN"
  | Number.inf false => "Infinity"
  | Number.inf true => "-Infinity"
  | Number.fin neg N =>
    if N = 0 then "0"
    else String.mk ((if neg then ['-'] else []) ++ magToString N)

/-- The method `Number.prototype.toFixed(f)`: the nearest decimal with `f`
fraction digits, the larger one on a tie; Number-to-String conversion from
`10 ^ 21` on and for values that are not finite. -/
def toFixed (x : Number) (f : Nat) : String :=
  match x with
  | Number.fin neg N =>
    if 10 ^ 21 * unit ≤ N then toString x
    else
      let n := (2 * N * 10 ^ f + unit) / (2 * unit)
      let m := Nat.toDigits 10 n
      let m := List.replicate (f + 1 - m.length) '0' ++ m
      let m := if f = 0 then m else m.take (m.length - f) ++ '.' :: m.drop (m.length - f)
      String.mk ((if neg ∧ N ≠ 0 then ['-'] else []) ++ m)
  | _ => toString x

/-- The decimal text of an integer. -/
def decimalText (z : Int) : String :=
  if z < 0 then "-" ++ Nat.repr z.natAbs else Nat.repr z.natAbs

end JS

namespace DOM

/-! ## Part 2: the document -/

/-- What the selectors of the script look at in an element: tag name, id,
class list and the `name` attribute. The script never changes them on an
element of the page. -/
structure Key where
  tag : String
  id : String
  classList : List String
  name : String
  deriving DecidableEq, Repr

/-- An element with what the script reads or writes on it.
* `type` and `value` hold the strings that reading these properties gives
  (`value` is `none` where the element has no such property, so that reading
  it gives `undefined`); `value` and `checked` are independent, as they are
  for a checkbox, whose value is "on" unless the markup gives another one.
* `src` holds the `src` content attribute on an element that reflects it
  (`none` without the attribute), and on any other element the property of
  that name a script has put on it (`none` when there is none); reading
  `el.src` is `readSrc`.
* `borderColor` holds the colour last assigned to `style.borderColor`.
* `additionalCost` is `dataset.additionalCost` (`none` without a
  `data-additional-cost` attribute). -/
structure Element where
  key : Key
  type : String
  value : Option String
  checked : Bool
  src : Option String
  borderColor : String
  additionalCost : Option String
  deriving DecidableEq, Repr

/-- The elements that reflect the `src` content attribute as a URL. -/
def reflectsSrc (tag : String) : Bool :=
  decide (tag ∈ ["img", "script", "iframe", "frame", "embed", "audio", "video", "source",
    "track", "input"])

/-- Reading `el.src`. On an element that reflects the attribute: the empty
string without the attribute, else the attribute resolved against the base
URL of the page; `resolve` is that resolution (the URL parser and serialiser
of the browser, the attribute itself where it does not parse). On any other
element: the property a script has put there, `undefined` when there is
none. -/
def readSrc (resolve : String → String) (e : Element) : Option String :=
  if reflectsSrc e.key.tag then
    match e.src with
    | none => some ""
    | some s => some (resolve s)
  else e.src

/-- A list of sibling nodes in document order: empty, or a text node or an
element (with the list of its children) followed by the later siblings. -/
inductive Nodes where
  | nil : Nodes
  | text (data : String) (next : Nodes) : Nodes
  | element (el : Element) (children : Nodes) (next : Nodes) : Nodes
  deriving DecidableEq, Repr

/-- One node: a text node, or an element with its children. -/
inductive Node where
  | text (data : String) : Node
  | element (el : Element) (children : Nodes) : Node
  deriving DecidableEq, Repr

/-- A reference to a node: the child indices leading to it from the body. -/
abbrev Path := List Nat

/-- The path of the same node after one more sibling was put in front. -/
def bump : Path → Path
  | [] => []
  | i :: q => (i + 1) :: q

/-- A selector decides from the keys of the ancestors (nearest first) and
the key of the element. -/
abbrev Selector := List Key → Key → Bool

namespace Nodes

/-- The sibling list `a` followed by the sibling list `b`. -/
def append : Nodes → Nodes → Nodes
  | nil, b => b
  | text s r, b => text s (append r b)
  | element e k r, b => element e k (append r b)

/-- The sibling list holding the one node. -/
def single : Node → Nodes
  | Node.text s => text s nil
  | Node.element e k => element e k nil

/-- Number of nodes in the sibling list. -/
def length : Nodes → Nat
  | nil => 0
  | text _ r => length r + 1
  | element _ _ r => length r + 1

/-- The concatenated text of the nodes and their descendants. -/
def textContent : Nodes → String
  | nil => ""
  | text s r => s ++ textContent r
  | element _ k r => textContent k ++ textContent r

/-- The node a path refers to. -/
def get? : Nodes → Path → Option Node
  | nil, _ => none
  | text _ _, [] => none
  | element _ _ _, [] => none
  | text s _, 0 :: q => if q = [] then some (Node.text s) else none
  | text _ r, (i + 1) :: q => get? r (i :: q)
  | element e k _, 0 :: q => if q = [] then some (Node.element e k) else get? k q
  | element _ _ r, (i + 1) :: q => get? r (i :: q)

/-- The element a path refers to. -/
def elementAt (d : Nodes) (q : Path) : Option Element :=
  match get? d q with
  | some (Node.element e _) => some e
  | _ => none

/-- The element at the path replaced by `f` of it, and its children by `g`
of them. -/
def update (f : Element → Element) (g : Nodes → Nodes) : Nodes → Path → Nodes
  | nil, _ => nil
  | text s r, [] => text s r
  | element e k r, [] => element e k r
  | text s r, 0 :: _ => text s r
  | text s r, (i + 1) :: q => text s (update f g r (i :: q))
  | element e k r, 0 :: q =>
    if q = [] then element (f e) (g k) r else element e (update f g k q) r
  | element e k r, (i + 1) :: q => element e k (update f g r (i :: q))

/-- The node at the path taken out, with its descendants. -/
def remove : Nodes → Path → Nodes
  | nil, _ => nil
  | text s r, [] => text s r
  | element e k r, [] => element e k r
  | text s r, 0 :: q => if q = [] then r else text s r
  | text s r, (i + 1) :: q => text s (remove r (i :: q))
  | element e k r, 0 :: q => if q = [] then r else element e (remove k q) r
  | element e k r, (i + 1) :: q => element e k (remove r (i :: q))

/-- The keys of the element at the path and of its ancestors, nearest
first. -/
def keysTo : Nodes → Path → List Key
  | nil, _ => []
  | text _ _, [] => []
  | element _ _ _, [] => []
  | text _ _, 0 :: _ => []
  | text _ r, (i + 1) :: q => keysTo r (i :: q)
  | element e k _, 0 :: q => if q = [] then [e.key] else keysTo k q ++ [e.key]
  | element _ _ r, (i + 1) :: q => keysTo r (i :: q)

/-- The node `n` put in as first child of the element at the path. -/
def insertFirst (n : Node) (d : Nodes) (q : Path) : Nodes :=
  update id (fun k => append (single n) k) d q

/-- The paths of the elements the selector matches, in document order;
`anc` holds the keys of the ancestors of the sibling list. -/
def select (sel : Selector) : List Key → Nodes → List Path
  | _, nil => []
  | anc, text _ r => (select sel anc r).map bump
  | anc, element e k r =>
    (if sel anc e.key then [[0]] else []) ++
      ((select sel (e.key :: anc) k).map (List.cons 0) ++ (select sel anc r).map bump)

end Nodes

/-- Selector for the candidates to hide `form.submit`: listed elements and
images whose id or name is "submit" and that have no form among their
ancestors below the form searched, which itself has `outer` ancestors and
self. -/
def namedSubmit (outer : Nat) : Selector := fun anc k =>
  (decide (k.id = "submit") || decide (k.name = "submit")) &&
    decide (k.tag ∈ ["button", "fieldset", "input", "object", "output", "select",
      "textarea", "img"]) &&
    (anc.take (anc.length - outer)).all (fun a => decide (a.tag ≠ "form"))

/-- The page: the class list of the body, the children of the body, the
forms `submit()` was called on (each as it was at the call), oldest first,
and the exceptions that ended a call of the script, oldest first.
The html, head and body elements themselves are not searched: they are taken
to carry none of the ids, classes and tag names the script looks for. -/
structure Document where
  bodyClassList : List String
  nodes : Nodes
  submitted : List Node
  uncaught : List String := []
  deriving DecidableEq, Repr

namespace Document

/-- All matches of the selector, `document.querySelectorAll`. -/
def querySelectorAll (doc : Document) (sel : Selector) : List Path :=
  doc.nodes.select sel []

/-- The first match of the selector, `document.querySelector`. -/
def querySelector (doc : Document) (sel : Selector) : Option Path :=
  (doc.querySelectorAll sel).head?

/-- Reading a property of the element behind a reference. -/
def prop {α : Type} (doc : Document) (q : Path) (field : Element → Option α) : Option α :=
  (doc.nodes.elementAt q).bind field

/-- Reading `textContent` of the node behind a reference. -/
def textContent (doc : Document) (q : Path) : String :=
  match doc.nodes.get? q with
  | some (Node.element _ k) => k.textContent
  | some (Node.text s) => s
  | none => ""

/-- Assigning properties of the element behind a reference. -/
def assign (doc : Document) (q : Path) (f : Element → Element) : Document :=
  { doc with nodes := doc.nodes.update f id q }

/-- Assigning `textContent` of the element behind a reference: its children
are replaced by one text node, by nothing when the text is empty. -/
def setTextContent (doc : Document) (q : Path) (s : String) : Document :=
  let kids := if s = "" then Nodes.nil else Nodes.text s Nodes.nil
  { doc with nodes := doc.nodes.update id (fun _ => kids) q }

/-- The matches of the selector among the descendants of the element behind
the reference, `element.querySelectorAll`. -/
def querySelectorAllIn (doc : Document) (q : Path) (sel : Selector) : List Path :=
  match doc.nodes.get? q with
  | some (Node.element _ k) => (k.select sel (doc.nodes.keysTo q)).map (fun r => q ++ r)
  | _ => []

/-- Taking the node behind the reference out of the page, `node.remove()`. -/
def remove (doc : Document) (q : Path) : Document :=
  { doc with nodes := doc.nodes.remove q }

/-- Adding a node as last child of the body, `document.body.appendChild`. -/
def appendToBody (doc : Document) (n : Node) : Document :=
  { doc with nodes := doc.nodes.append (Nodes.single n) }

/-- Putting a node in front of the first child of the element behind the
reference, `el.insertBefore(node, el.firstChild)`. -/
def insertFirst (doc : Document) (q : Path) (n : Node) : Document :=
  { doc with nodes := doc.nodes.insertFirst n q }

/-- Whether a control of the form behind the reference hides the method
`form.submit`: a listed element or an image owned by the form (a descendant
with no nearer form around it; the model has no `form` attribute) whose id
or name is "submit", other than an image button. The form then answers
`form.submit` with that control. -/
def submitShadowed (doc : Document) (q : Path) : Bool :=
  (doc.querySelectorAllIn q (namedSubmit (doc.nodes.keysTo q).length)).any
    (fun c => match doc.nodes.elementAt c with
      | some e => !(decide (e.key.tag = "input") && decide (e.type = "image"))
      | none => false)

/-- The call `form.submit()` on the form behind the reference: recorded with
the form as it is; where a control hides the method, the call throws a
TypeError instead and nothing is submitted. -/
def submit (doc : Document) (q : Path) : Document :=
  if doc.submitShadowed q then
    { doc with uncaught := doc.uncaught ++ ["TypeError: form.submit is not a function"] }
  else
    { doc with submitted := doc.submitted ++ (doc.nodes.get? q).toList }

end Document

/-- A new element of the given tag and classes, `document.createElement`
and `className`: no id, no name, none of the modelled properties set. -/
def createElement (tag : String) (classList : List String) : Element :=
  { key := { tag := tag, id := "", classList := classList, name := "" },
    type := "", value := none, checked := false, src := none, borderColor := "",
    additionalCost := none }

/-- `classList.add(token)`. -/
def classListAdd (cl : List String) (token : String) : List String :=
  if token ∈ cl then cl else cl ++ [token]

/-- `classList.remove(token)`. -/
def classListRemove (cl : List String) (token : String) : List String :=
  cl.filter (fun c => decide (c ≠ token))

/-! ### The selectors of the script -/

/-- Selector `.price-display`. -/
def priceDisplay : Selector := fun _ k => decide ("price-display" ∈ k.classList)

/-- Selector `#customizationForm input, #customizationForm select`. -/
def customizationInputs : Selector := fun anc k =>
  anc.any (fun a => decide (a.id = "customizationForm")) &&
    (decide (k.tag = "input") || decide (k.tag = "select"))

/-- Selector `#quantity`. -/
def quantity : Selector := fun _ k => decide (k.id = "quantity")

/-- Selector `#totalPrice`. -/
def totalPrice : Selector := fun _ k => decide (k.id = "totalPrice")

/-- Selector `input[name="min_price"]`. -/
def minPrice : Selector := fun _ k => decide (k.tag = "input") && decide (k.name = "min_price")

/-- Selector `input[name="max_price"]`. -/
def maxPrice : Selector := fun _ k => decide (k.tag = "input") && decide (k.name = "max_price")

/-- Selector `.loading-overlay`. -/
def loadingOverlay : Selector := fun _ k => decide ("loading-overlay" ∈ k.classList)

/-- Selector `form`. -/
def form : Selector := fun _ k => decide (k.tag = "form")

/-- Selector `input, select`. -/
def inputOrSelect : Selector := fun _ k => decide (k.tag = "input") || decide (k.tag = "select")

/-- Selector `#mainImage`, as `getElementById` looks it up. -/
def mainImage : Selector := fun _ k => decide (k.id = "mainImage")

/-- Selector `.thumbnail-img`. -/
def thumbnailImg : Selector := fun _ k => decide ("thumbnail-img" ∈ k.classList)

/-- Selector `.cart-count`. -/
def cartCount : Selector := fun _ k => decide ("cart-count" ∈ k.classList)

/-- Selector `.container`. -/
def container : Selector := fun _ k => decide ("container" ∈ k.classList)

/-! ### Auxiliary notions for the proofs -/

/-- The text of one node: its data, or the concatenated text of its
children. -/
def Nodes.nodeText : Node → String
  | Node.text s => s
  | Node.element _ k => Nodes.textContent k

/-- The image of a node under a change of element properties and of
children. -/
def Nodes.mapNode (f : Element → Element) (g : Nodes → Nodes) : Node → Node
  | Node.text s => Node.text s
  | Node.element e k => Node.element (f e) (g k)

/-- The matches of a selector among the children of a node and their
descendants. -/
def Nodes.selectUnder (sel : Selector) (anc : List Key) : Option Node → List Path
  | some (Node.element _ k) => Nodes.select sel anc k
  | _ => []

/-- The path of the same node after `n` more siblings were put in front. -/
def shift (n : Nat) : Path → Path
  | [] => []
  | i :: q => (i + n) :: q

/-- The sibling list of `n` copies of a node. -/
def Nodes.copies (node : Node) : Nat → Nodes
  | 0 => Nodes.nil
  | n + 1 => Nodes.append (Nodes.single node) (Nodes.copies node n)

end DOM

namespace Marketplace

open JS DOM

/-! ## Part 3: the script -/

/-! ### Price range validation, `initFilters` lines 23-45 -/

/-- The references `initFilters` keeps for the two price listeners: both are
registered only when both fields exist. (The change listener of the sort
dropdown, lines 13-21, is independent of them.) -/
def initFilters (doc : Document) : Option (Path × Path) :=
  match doc.querySelector minPrice, doc.querySelector maxPrice with
  | some minPriceInput, some maxPriceInput => some (minPriceInput, maxPriceInput)
  | _, _ => none

/-- The `input` listener of the min-price field (lines 28-35). -/
def minPriceListener (minPriceInput maxPriceInput : Path) (doc : Document) : Document :=
  let minVal := parseFloat (toStr (doc.prop minPriceInput Element.value))
  let maxVal := parseFloat (toStr (doc.prop maxPriceInput Element.value))
  if toBoolean maxVal && gt minVal maxVal then
    doc.assign maxPriceInput (fun e => { e with value := some (JS.toString minVal) })
  else doc

/-- The `input` listener of the max-price field (lines 37-44). -/
def maxPriceListener (minPriceInput maxPriceInput : Path) (doc : Document) : Document :=
  let minVal := parseFloat (toStr (doc.prop minPriceInput Element.value))
  let maxVal := parseFloat (toStr (doc.prop maxPriceInput Element.value))
  if toBoolean minVal && lt maxVal minVal then
    doc.assign minPriceInput (fun e => { e with value := some (JS.toString maxVal) })
  else doc

/-! ### `calculateTotalPrice`, lines 92-112 -/

/-- Line 94: `parseFloat(document.querySelector('.price-display')
?.textContent.replace('$', '')) || 0`. -/
def basePrice (doc : Document) : Number :=
  orElse (parseFloat (toStr ((doc.querySelector priceDisplay).map
    (fun el => String.mk ((doc.textContent el).data.erase '$'))))) zero

/-- One step of the `forEach` of lines 98-102. -/
def addCost (doc : Document) (totalAdditionalCost : Number) (input : Path) : Number :=
  if truthy (doc.prop input Element.value) &&
      truthy (doc.prop input Element.additionalCost) then
    add totalAdditionalCost (parseFloat (toStr (doc.prop input Element.additionalCost)))
  else totalAdditionalCost

/-- Lines 95-102: the additional costs summed over the customization inputs,
in document order, starting from 0. -/
def totalAdditionalCost (doc : Document) : Number :=
  (doc.querySelectorAll customizationInputs).foldl (addCost doc) zero

/-- Line 104: `parseInt(document.querySelector('#quantity')?.value) || 1`. -/
def quantity (doc : Document) : Number :=
  orElse (parseInt (toStr ((doc.querySelector DOM.quantity).bind
    (fun el => doc.prop el Element.value)))) one

/-- `calculateTotalPrice()`. -/
def calculateTotalPrice (doc : Document) : Document :=
  let totalPrice := mul (add (basePrice doc) (totalAdditionalCost doc)) (quantity doc)
  match doc.querySelector DOM.totalPrice with
  | some totalPriceElement =>
    doc.setTextContent totalPriceElement ("$" ++ toFixed totalPrice 2)
  | none => doc

/-! ### `showLoading` and `hideLoading`, lines 114-152 -/

/-- The overlay `showLoading` builds (lines 120-126): a `div` of class
`loading-overlay` whose `innerHTML` is the spinner markup. Its inline style
(lines 127-138) is not among the modelled properties. -/
def loadingOverlayNode : Node :=
  Node.element (createElement "div" ["loading-overlay"])
    (Nodes.text "\n        "
      (Nodes.element (createElement "div" ["spinner-border", "text-primary"])
        (Nodes.text "\n            "
          (Nodes.element (createElement "span" ["visually-hidden"])
            (Nodes.text "Loading..." Nodes.nil)
            (Nodes.text "\n        " Nodes.nil)))
        (Nodes.text "\n    " Nodes.nil)))

/-- `showLoading()`. -/
def showLoading (doc : Document) : Document :=
  let doc := { doc with bodyClassList := classListAdd doc.bodyClassList "loading" }
  doc.appendToBody loadingOverlayNode

/-- `hideLoading()`. -/
def hideLoading (doc : Document) : Document :=
  let doc := { doc with bodyClassList := classListRemove doc.bodyClassList "loading" }
  match doc.querySelector DOM.loadingOverlay with
  | some loadingOverlay => doc.remove loadingOverlay
  | none => doc

/-! ### `clearFilters`, lines 155-168 -/

/-- What reading `value` gives after line 163 assigned the empty string to
an input or select. A range and a color input cannot hold the empty string:
their value sanitization puts `fallback` in its place, the default value of
the range (50 for a range from 0 to 100) and the default colour (`#000000`).
Every other input, and a select, then reads the empty string. -/
def valueAfterClear (fallback : String) (e : Element) : String :=
  if e.key.tag = "input" ∧ (e.type = "range" ∨ e.type = "color") then fallback else ""

/-- One step of the `forEach` of lines 159-165. -/
def clearInput (fallback : Path → String) (doc : Document) (input : Path) : Document :=
  if doc.prop input (fun e => some e.type) = some "checkbox" then
    doc.assign input (fun e => { e with checked := false })
  else
    doc.assign input (fun e => { e with value := some (valueAfterClear (fallback input) e) })

/-- `clearFilters()`; `fallback` gives, for the range or color input behind
a reference, what its value sanitization puts in place of the empty
string. -/
def clearFilters (fallback : Path → String) (doc : Document) : Document :=
  match doc.querySelector DOM.form with
  | some form =>
    let inputs := doc.querySelectorAllIn form inputOrSelect
    let doc := inputs.foldl (clearInput fallback) doc
    doc.submit form
  | none => doc

/-! ### `changeMainImage`, lines 180-191 -/

/-- One step of the `forEach` of lines 187-189: `thumb.src === imageUrl`
compares what reading `thumb.src` gives. -/
def markThumbnail (resolve : String → String) (imageUrl : String) (doc : Document)
    (thumb : Path) : Document :=
  doc.assign thumb (fun e =>
    { e with borderColor :=
        if readSrc resolve e = some imageUrl then "#007bff" else "transparent" })

/-- `changeMainImage(imageUrl)`; `resolve` is the resolution of a URL against
the base URL of the page. Line 183 sets the `src` attribute of the main
image (on an element without one, a property of that name). -/
def changeMainImage (resolve : String → String) (imageUrl : String) (doc : Document) :
    Document :=
  match doc.querySelector DOM.mainImage with
  | some mainImage =>
    let doc := doc.assign mainImage (fun e => { e with src := some imageUrl })
    let thumbnails := doc.querySelectorAll thumbnailImg
    thumbnails.foldl (markThumbnail resolve imageUrl) doc
  | none => doc

/-! ### `addToCart`, `showMessage`, `updateCartCount`, lines 194-242 -/

/-- The alert `showMessage` builds (lines 217-222); the message is taken as
plain text and `type` as one class token. -/
def alertNode (message type : String) : Node :=
  Node.element
    (createElement "div" ["alert", "alert-" ++ type, "alert-dismissible", "fade", "show"])
    (Nodes.text ("\n        " ++ message ++ "\n        ")
      (Nodes.element { createElement "button" ["btn-close"] with type := "button" }
        Nodes.nil
        (Nodes.text "\n    " Nodes.nil)))

/-- `showMessage(message, type)` up to the insertion of the alert (lines
216-227); the removal five seconds later is not part of the page state right
after the call. -/
def showMessage (message type : String) (doc : Document) : Document :=
  match doc.querySelector DOM.container with
  | some container => doc.insertFirst container (alertNode message type)
  | none => doc

/-- `updateCartCount()`. -/
def updateCartCount (doc : Document) : Document :=
  match doc.querySelector DOM.cartCount with
  | some cartCountElement =>
    let currentCount := orElse (parseInt (doc.textContent cartCountElement)) zero
    doc.setTextContent cartCountElement (JS.toString (add currentCount one))
  | none => doc

/-- `addToCart(productId, quantity, customizations)`: the record `cartData`
is built and not used. -/
def addToCart {α β γ : Type} (productId : α) (quantity : β) (customizations : γ)
    (doc : Document) : Document :=
  let _cartData := (productId, quantity, customizations)
  let doc := showMessage "Product added to cart!" "success" doc
  updateCartCount doc

/-! ### The changes the loops make to one element -/

/-- What lines 160-164 do to an element: a checkbox is unchecked, anything
else is assigned the empty value. -/
def cleared (fallback : String) (e : Element) : Element :=
  if e.type = "checkbox" then { e with checked := false }
  else { e with value := some (valueAfterClear fallback e) }

/-- What line 188 does to a thumbnail. -/
def marked (resolve : String → String) (imageUrl : String) (e : Element) : Element :=
  { e with borderColor :=
      if readSrc resolve e = some imageUrl then "#007bff" else "transparent" }

/-! ### Sample pages -/

/-- An element of the given tag, id, classes and name. -/
def sampleElement (tag id : String) (classList : List String) (name : String) : Element :=
  { createElement tag classList with
    key := { tag := tag, id := id, classList := classList, name := name } }

/-- A text input of the given name and value. -/
def sampleInput (name value : String) : Element :=
  { sampleElement "input" "" [] name with type := "text", value := some value }

/-- A filter form with a min-price and a max-price field. -/
def priceForm (minValue maxValue : String) : Document :=
  { bodyClassList := [], submitted := [],
    nodes :=
      Nodes.element (sampleElement "form" "" [] "")
        (Nodes.element (sampleInput "min_price" minValue) Nodes.nil
          (Nodes.element (sampleInput "max_price" maxValue) Nodes.nil Nodes.nil))
        Nodes.nil }

/-- A filter form with a checked checkbox and a filled text input, next to a
search box outside the form. -/
def filterPage : Document :=
  { bodyClassList := [], submitted := [],
    nodes :=
      Nodes.element (sampleInput "q" "lamp") Nodes.nil
        (Nodes.element (sampleElement "form" "" [] "")
          (Nodes.element
            { sampleElement "input" "" [] "in_stock" with
              type := "checkbox", value := some "on", checked := true } Nodes.nil
            (Nodes.element (sampleInput "min_price" "10") Nodes.nil Nodes.nil))
          Nodes.nil) }

/-- The replacements for the empty string on the two inputs of `sliderPage`:
"50" on the range input, which goes from 0 to 100 in steps of 1, and
"#000000" on the color input. -/
def sliderFallback (input : Path) : String :=
  if input = [0, 0] then "50" else "#000000"

/-- A filter form with a range input and a color input. -/
def sliderPage : Document :=
  { bodyClassList := [], submitted := [],
    nodes :=
      Nodes.element (sampleElement "form" "" [] "")
        (Nodes.element
          { sampleElement "input" "" [] "rating" with type := "range", value := some "70" }
          Nodes.nil
          (Nodes.element
            { sampleElement "input" "" [] "colour" with
              type := "color", value := some "#ff0000" } Nodes.nil Nodes.nil))
        Nodes.nil }

/-- A filter form whose submit button is named "submit". -/
def namedSubmitPage : Document :=
  { bodyClassList := [], submitted := [],
    nodes :=
      Nodes.element (sampleElement "form" "" [] "")
        (Nodes.element (sampleInput "q" "lamp") Nodes.nil
          (Nodes.element
            { sampleElement "input" "" [] "submit" with
              type := "submit", value := some "Search" } Nodes.nil Nodes.nil))
        Nodes.nil }

/-- URL resolution on the page `http://shop.example/products/1`, for the
URLs of the gallery: an `http:` or `https:` URL in serialised form is kept, a
file name is put after `http://shop.example/products/`. -/
def shopResolve (s : String) : String :=
  if "http://".data.isPrefixOf s.data || "https://".data.isPrefixOf s.data then s
  else "http://shop.example/products/" ++ s

/-- A thumbnail image with the given `src` attribute. -/
def thumbnail (src : String) : Element :=
  { sampleElement "img" "" ["thumbnail-img"] "" with src := some src }

/-- A gallery: the main image and two thumbnails, `src` attributes as
given. -/
def galleryPage (main first second : String) : Document :=
  { bodyClassList := [], submitted := [],
    nodes :=
      Nodes.element { sampleElement "img" "mainImage" [] "" with src := some main } Nodes.nil
        (Nodes.element (thumbnail first) Nodes.nil
          (Nodes.element (thumbnail second) Nodes.nil Nodes.nil)) }

/-- A product page: the price display, a customization form with one
checkbox that carries an additional cost, the quantity field and the (still
empty) total. -/
def productPage (priceText : String) (checked : Bool) (cost quantityValue : String) :
    Document :=
  { bodyClassList := [], submitted := [],
    nodes :=
      Nodes.element (sampleElement "span" "" ["price-display"] "")
        (Nodes.text priceText Nodes.nil)
        (Nodes.element (sampleElement "form" "customizationForm" [] "")
          (Nodes.element
            { sampleElement "input" "" [] "gift_wrap" with
              type := "checkbox", value := some "on", checked := checked,
              additionalCost := some cost } Nodes.nil Nodes.nil)
          (Nodes.element
            { sampleElement "input" "quantity" [] "quantity" with
              type := "number", value := some quantityValue } Nodes.nil
            (Nodes.element (sampleElement "span" "totalPrice" [] "") Nodes.nil Nodes.nil))) }

/-- The claim of the specification read literally: the price text without
its `$` parsed as a number, plus the costs of the inputs with a truthy value
and an additional-cost attribute, times the integer parsed from `#quantity`,
with two decimals after a `$`. -/
def specTotalText (priceText : String) (costs : List String) (quantityValue : String) :
    String :=
  "$" ++ toFixed (mul
    (add (parseFloat (String.mk (priceText.data.erase '$')))
      ((costs.map parseFloat).foldl add zero))
    (parseInt quantityValue)) 2

/-- A page with a navigation bar showing the cart count, and a container
with a heading. -/
def cartPage (count : String) : Document :=
  { bodyClassList := [], submitted := [],
    nodes :=
      Nodes.element (sampleElement "nav" "" ["navbar"] "")
        (Nodes.text "Cart "
          (Nodes.element (sampleElement "span" "" ["badge", "cart-count"] "")
            (Nodes.text count Nodes.nil) Nodes.nil))
        (Nodes.element (sampleElement "div" "" ["container"] "")
          (Nodes.element (sampleElement "h1" "" [] "") (Nodes.text "Lamp" Nodes.nil) Nodes.nil)
          Nodes.nil) }

end Marketplace

/-! ## Part 4: properties -/

namespace DOM
namespace Nodes

/-! ### References and updates -/

@[simp] theorem get?_nil_path (d : Nodes) : get? d [] = none := by
  cases d <;> rfl

theorem get?_update_self (f : Element → Element) (g : Nodes → Nodes) (d : Nodes) (q : Path) :
    get? (update f g d q) q = (get? d q).map (mapNode f g) := by
  induction d generalizing q with
  | nil => simp [update, get?]
  | text s r ih =>
    rcases q with _ | ⟨i, q⟩
    · simp [update, get?]
    · cases i with
      | zero => by_cases h : q = [] <;> simp [update, get?, h, mapNode]
      | succ i => simpa [update, get?] using ih (i :: q)
  | element e k r ihk ihr =>
    rcases q with _ | ⟨i, q⟩
    · simp [update, get?]
    · cases i with
      | zero =>
        by_cases h : q = []
        · simp [update, get?, h, mapNode]
        · simpa [update, get?, h] using ihk q
      | succ i => simpa [update, get?] using ihr (i :: q)

theorem elementAt_update_outside (f : Element → Element) (g : Nodes → Nodes)
    (d : Nodes) (q q' : Path) (h : ¬ q <+: q') :
    elementAt (update f g d q) q' = elementAt d q' := by
  induction d generalizing q q' with
  | nil => simp [update]
  | text s r ih =>
    rcases q with _ | ⟨i, q⟩
    · simp [update]
    · cases i with
      | zero => simp [update]
      | succ i =>
        rcases q' with _ | ⟨j, q'⟩
        · simp [elementAt]
        · cases j with
          | zero => simp [elementAt, update, get?]
          | succ j =>
            have h' : ¬ (i :: q) <+: (j :: q') := by
              intro hp
              apply h
              rw [List.cons_prefix_cons] at hp ⊢
              exact ⟨by omega, hp.2⟩
            simpa [elementAt, update, get?] using ih (i :: q) (j :: q') h'
  | element e k r ihk ihr =>
    rcases q with _ | ⟨i, q⟩
    · simp [update]
    · cases i with
      | zero =>
        rcases q' with _ | ⟨j, q'⟩
        · simp [elementAt]
        · cases j with
          | zero =>
            have h' : ¬ q <+: q' := by
              intro hp
              apply h
              rw [List.cons_prefix_cons]
              exact ⟨rfl, hp⟩
            by_cases hq : q = []
            · subst hq
              exact absurd (List.nil_prefix) h'
            · by_cases hq' : q' = []
              · subst hq'
                simp [elementAt, update, get?, hq]
              · simpa [elementAt, update, get?, hq, hq'] using ihk q q' h'
          | succ j =>
            by_cases hq : q = [] <;> simp [elementAt, update, get?, hq]
      | succ i =>
        rcases q' with _ | ⟨j, q'⟩
        · simp [elementAt]
        · cases j with
          | zero => simp [elementAt, update, get?]
          | succ j =>
            have h' : ¬ (i :: q) <+: (j :: q') := by
              intro hp
              apply h
              rw [List.cons_prefix_cons] at hp ⊢
              exact ⟨by omega, hp.2⟩
            simpa [elementAt, update, get?] using ihr (i :: q) (j :: q') h'

theorem elementAt_update_id_of_ne (f : Element → Element) (d : Nodes) (q q' : Path)
    (h : q' ≠ q) :
    elementAt (update f id d q) q' = elementAt d q' := by
  induction d generalizing q q' with
  | nil => simp [update]
  | text s r ih =>
    rcases q with _ | ⟨i, q⟩
    · simp [update]
    · cases i with
      | zero => simp [update]
      | succ i =>
        rcases q' with _ | ⟨j, q'⟩
        · simp [elementAt]
        · cases j with
          | zero => simp [elementAt, update, get?]
          | succ j =>
            have h' : (j :: q') ≠ (i :: q) := by
              intro hp
              apply h
              simp only [List.cons.injEq] at hp ⊢
              exact ⟨by omega, hp.2⟩
            simpa [elementAt, update, get?] using ih (i :: q) (j :: q') h'
  | element e k r ihk ihr =>
    rcases q with _ | ⟨i, q⟩
    · simp [update]
    · cases i with
      | zero =>
        rcases q' with _ | ⟨j, q'⟩
        · simp [elementAt]
        · cases j with
          | zero =>
            have h' : q' ≠ q := by
              intro hp
              apply h
              rw [hp]
            by_cases hq : q = []
            · subst hq
              simp [elementAt, update, get?, h']
            · by_cases hq' : q' = []
              · subst hq'
                simp [elementAt, update, get?, hq]
              · simpa [elementAt, update, get?, hq, hq'] using ihk q q' h'
          | succ j =>
            by_cases hq : q = [] <;> simp [elementAt, update, get?, hq]
      | succ i =>
        rcases q' with _ | ⟨j, q'⟩
        · simp [elementAt]
        · cases j with
          | zero => simp [elementAt, update, get?]
          | succ j =>
            have h' : (j :: q') ≠ (i :: q) := by
              intro hp
              apply h
              simp only [List.cons.injEq] at hp ⊢
              exact ⟨by omega, hp.2⟩
            simpa [elementAt, update, get?] using ihr (i :: q) (j :: q') h'

theorem elementAt_update_self (f : Element → Element) (g : Nodes → Nodes) (d : Nodes)
    (q : Path) : elementAt (update f g d q) q = (elementAt d q).map f := by
  unfold elementAt
  rw [get?_update_self]
  rcases get? d q with _ | n
  · rfl
  · cases n <;> rfl

theorem elementAt_update_id (f : Element → Element) (d : Nodes) (q q' : Path) :
    elementAt (update f id d q) q' =
      if q' = q then (elementAt d q).map f else elementAt d q' := by
  by_cases h : q' = q
  · subst h
    simp [elementAt_update_self]
  · simp [h, elementAt_update_id_of_ne f d q q' h]

/-! ### Selection -/

theorem select_update_id (sel : Selector) (f : Element → Element)
    (hf : ∀ e, (f e).key = e.key) (anc : List Key) (d : Nodes) (q : Path) :
    select sel anc (update f id d q) = select sel anc d := by
  induction d generalizing anc q with
  | nil => simp [update]
  | text s r ih =>
    rcases q with _ | ⟨i, q⟩
    · simp [update]
    · cases i with
      | zero => simp [update]
      | succ i => simp [update, select, ih]
  | element e k r ihk ihr =>
    rcases q with _ | ⟨i, q⟩
    · simp [update]
    · cases i with
      | zero =>
        by_cases hq : q = []
        · simp [update, select, hq, hf]
        · simp [update, select, hq, ihk]
      | succ i => simp [update, select, ihr]

theorem nil_not_mem_select (sel : Selector) (anc : List Key) (d : Nodes) :
    [] ∉ select sel anc d := by
  induction d generalizing anc with
  | nil => simp [select]
  | text s r ih =>
    simp only [select, List.mem_map, not_exists, not_and]
    intro x hx hb
    cases x with
    | nil => exact ih anc hx
    | cons a x => simp [bump] at hb
  | element e k r ihk ihr =>
    simp only [select, List.mem_append, List.mem_map, not_or, not_exists, not_and]
    refine ⟨?_, ?_, ?_⟩
    · split <;> simp
    · intro x _ hb
      simp at hb
    · intro x hx hb
      cases x with
      | nil => exact ihr anc hx
      | cons a x => simp [bump] at hb

theorem zero_cons_not_mem_bump (l : List Path) (q : Path) (h : [] ∉ l) :
    (0 :: q) ∉ l.map bump := by
  simp only [List.mem_map, not_exists, not_and]
  intro x hx hb
  cases x with
  | nil => exact h hx
  | cons a x => simp [bump] at hb

theorem succ_cons_mem_bump (l : List Path) (i : Nat) (q : Path) :
    ((i + 1) :: q) ∈ l.map bump ↔ (i :: q) ∈ l := by
  simp only [List.mem_map]
  constructor
  · rintro ⟨x, hx, hb⟩
    cases x with
    | nil => simp [bump] at hb
    | cons a x =>
      simp only [bump, List.cons.injEq, add_left_inj] at hb
      obtain ⟨rfl, rfl⟩ := hb
      exact hx
  · intro h
    exact ⟨i :: q, h, rfl⟩

theorem mem_select_simple (pr : Key → Bool) (anc : List Key) (d : Nodes) (q : Path) :
    q ∈ select (fun _ k => pr k) anc d ↔ ∃ e, elementAt d q = some e ∧ pr e.key = true := by
  induction d generalizing anc q with
  | nil => simp [select, elementAt, get?]
  | text s r ih =>
    rcases q with _ | ⟨i, q⟩
    · have := nil_not_mem_select (fun _ k => pr k) anc (text s r)
      simp [this, elementAt]
    · cases i with
      | zero =>
        have h0 := zero_cons_not_mem_bump _ q (nil_not_mem_select (fun _ k => pr k) anc r)
        simp only [select, h0, false_iff, not_exists, not_and]
        intro e he
        by_cases hq : q = [] <;> simp [elementAt, get?, hq] at he
      | succ i =>
        simp only [select, succ_cons_mem_bump, ih anc (i :: q)]
        simp [elementAt, get?]
  | element e k r ihk ihr =>
    rcases q with _ | ⟨i, q⟩
    · have := nil_not_mem_select (fun _ k => pr k) anc (element e k r)
      simp [this, elementAt]
    · cases i with
      | zero =>
        have h0 := zero_cons_not_mem_bump _ q (nil_not_mem_select (fun _ k => pr k) anc r)
        have hk := ihk (e.key :: anc) q
        have hnil := nil_not_mem_select (fun _ k => pr k) (e.key :: anc) k
        simp only [select, List.mem_append, h0, or_false, List.mem_map, List.cons.injEq,
          true_and, exists_eq_right, hk]
        by_cases hq : q = []
        · subst hq
          by_cases hp : pr e.key = true <;> simp [elementAt, get?, hp]
        · by_cases hp : pr e.key = true <;> simp [elementAt, get?, hp, hq]
      | succ i =>
        simp only [select, List.mem_append, succ_cons_mem_bump, ihr anc (i :: q)]
        have h1 : ((i + 1) :: q) ∉ (if pr e.key = true then [[0]] else []) := by
          split <;> simp
        simp [h1, elementAt, get?]

/-! ### Appending and removing siblings -/

theorem append_nil (a : Nodes) : append a nil = a := by
  induction a with
  | nil => rfl
  | text s r ih => simp [append, ih]
  | element e k r _ ih => simp [append, ih]

theorem append_assoc (a b c : Nodes) : append (append a b) c = append a (append b c) := by
  induction a with
  | nil => rfl
  | text s r ih => simp [append, ih]
  | element e k r _ ih => simp [append, ih]

theorem copies_succ_last (node : Node) (n : Nat) :
    copies node (n + 1) = append (copies node n) (single node) := by
  induction n with
  | zero => simp [copies, append, append_nil]
  | succ n ih =>
    calc copies node (n + 1 + 1)
        = append (single node) (copies node (n + 1)) := rfl
      _ = append (single node) (append (copies node n) (single node)) := by rw [ih]
      _ = append (append (single node) (copies node n)) (single node) := by
          rw [append_assoc]
      _ = append (copies node (n + 1)) (single node) := rfl

theorem map_bump_shift (l : List Path) (n : Nat) :
    (l.map (shift n)).map bump = l.map (shift (n + 1)) := by
  rw [List.map_map]
  apply List.map_congr_left
  intro q _
  cases q with
  | nil => rfl
  | cons i q => simp [shift, bump, Nat.add_assoc]

theorem select_append_of_none (sel : Selector) (anc : List Key) (a b : Nodes)
    (h : select sel anc a = []) :
    select sel anc (append a b) = (select sel anc b).map (shift (length a)) := by
  induction a with
  | nil =>
    simp only [append, length]
    rw [List.map_congr_left (g := id)]
    · simp
    · intro q _
      cases q <;> simp [shift]
  | text s r ih =>
    simp only [select, List.map_eq_nil_iff] at h
    simp only [append, select, length, ih h, map_bump_shift]
  | element e k r _ ih =>
    simp only [select, List.append_eq_nil, List.map_eq_nil_iff] at h
    simp only [append, select, length, h.1, h.2.1, ih h.2.2, map_bump_shift, List.map_nil,
      List.nil_append]

theorem remove_append (a b : Nodes) (i : Nat) (q : Path) :
    remove (append a b) ((i + length a) :: q) = append a (remove b (i :: q)) := by
  induction a generalizing i with
  | nil => simp [append, length]
  | text s r ih =>
    have h : i + length (text s r) = (i + length r) + 1 := by simp [length]; omega
    rw [h]
    simp only [append, remove, ih]
  | element e k r _ ih =>
    have h : i + length (element e k r) = (i + length r) + 1 := by simp [length]; omega
    rw [h]
    simp only [append, remove, ih]

theorem select_copies (sel : Selector) (anc : List Key) (e : Element) (k : Nodes)
    (he : sel anc e.key = true) (hk : select sel (e.key :: anc) k = []) (n : Nat) :
    select sel anc (copies (Node.element e k) n) = (List.range n).map (fun i => [i]) := by
  induction n with
  | zero => rfl
  | succ n ih =>
    have h : copies (Node.element e k) (n + 1) =
        element e k (copies (Node.element e k) n) := rfl
    rw [h]
    simp only [select, he, hk, ih, List.range_succ_eq_map, List.map_map]
    simp only [if_true, List.map_nil, List.nil_append, List.singleton_append, List.map_cons,
      List.cons.injEq, true_and, List.map_map]
    apply List.map_congr_left
    intro i _
    rfl

/-! ### Descendants -/

theorem update_congr (f f' : Element → Element) (g : Nodes → Nodes) (d : Nodes) (q : Path)
    (h : ∀ e, elementAt d q = some e → f e = f' e) :
    update f g d q = update f' g d q := by
  induction d generalizing q with
  | nil => simp [update]
  | text s r ih =>
    rcases q with _ | ⟨i, q⟩
    · simp [update]
    · cases i with
      | zero => simp [update]
      | succ i =>
        simp only [update]
        rw [ih (i :: q) (by simpa [elementAt, get?] using h)]
  | element e k r ihk ihr =>
    rcases q with _ | ⟨i, q⟩
    · simp [update]
    · cases i with
      | zero =>
        by_cases hq : q = []
        · subst hq
          have := h e (by simp [elementAt, get?])
          simp [update, this]
        · simp only [update, hq, if_false]
          rw [ihk q (by simpa [elementAt, get?, hq] using h)]
      | succ i =>
        simp only [update]
        rw [ihr (i :: q) (by simpa [elementAt, get?] using h)]

theorem get?_append_path (d : Nodes) (p r : Path) (e : Element) (k : Nodes)
    (h : get? d p = some (Node.element e k)) (hr : r ≠ []) :
    get? d (p ++ r) = get? k r := by
  induction d generalizing p with
  | nil => simp [get?] at h
  | text s t ih =>
    rcases p with _ | ⟨i, p⟩
    · simp at h
    · cases i with
      | zero =>
        by_cases hp : p = [] <;> simp [get?, hp] at h
      | succ i =>
        simp only [get?] at h
        simpa [get?] using ih (i :: p) h
  | element e' k' t ihk iht =>
    rcases p with _ | ⟨i, p⟩
    · simp at h
    · cases i with
      | zero =>
        by_cases hp : p = []
        · subst hp
          simp only [get?, if_true, Option.some.injEq, Node.element.injEq] at h
          obtain ⟨rfl, rfl⟩ := h
          simp [get?, hr]
        · simp only [get?, hp, if_false] at h
          simpa [get?, hp] using ihk p h
      | succ i =>
        simp only [get?] at h
        simpa [get?] using iht (i :: p) h

theorem elementAt_some_get? (d : Nodes) (q : Path) (e : Element)
    (h : elementAt d q = some e) : ∃ k, get? d q = some (Node.element e k) := by
  unfold elementAt at h
  split at h
  · rename_i e' k heq
    cases h
    exact ⟨k, heq⟩
  · cases h

/-! ### Text under property updates -/

theorem textContent_update_id (f : Element → Element) (d : Nodes) (q : Path) :
    textContent (update f id d q) = textContent d := by
  induction d generalizing q with
  | nil => simp [update]
  | text s r ih =>
    rcases q with _ | ⟨i, q⟩
    · simp [update]
    · cases i with
      | zero => simp [update]
      | succ i => simp [update, textContent, ih]
  | element e k r ihk ihr =>
    rcases q with _ | ⟨i, q⟩
    · simp [update]
    · cases i with
      | zero =>
        by_cases hq : q = []
        · simp [update, textContent, hq]
        · simp [update, textContent, hq, ihk]
      | succ i => simp [update, textContent, ihr]

theorem nodeText_update_id (f : Element → Element) (d : Nodes) (q q' : Path) :
    (get? (update f id d q) q').map nodeText = (get? d q').map nodeText := by
  induction d generalizing q q' with
  | nil => simp [update]
  | text s r ih =>
    rcases q with _ | ⟨i, q⟩
    · simp [update]
    · cases i with
      | zero => simp [update]
      | succ i =>
        rcases q' with _ | ⟨j, q'⟩
        · simp
        · cases j with
          | zero => simp [update, get?]
          | succ j => simpa [update, get?] using ih (i :: q) (j :: q')
  | element e k r ihk ihr =>
    rcases q with _ | ⟨i, q⟩
    · simp [update]
    · cases i with
      | zero =>
        rcases q' with _ | ⟨j, q'⟩
        · simp
        · cases j with
          | zero =>
            by_cases hq : q = []
            · by_cases hq' : q' = [] <;> simp [update, get?, hq, hq', nodeText]
            · by_cases hq' : q' = []
              · simp [update, get?, hq, hq', nodeText, textContent_update_id]
              · simpa [update, get?, hq, hq'] using ihk q q'
          | succ j =>
            by_cases hq : q = [] <;> simp [update, get?, hq]
      | succ i =>
        rcases q' with _ | ⟨j, q'⟩
        · simp
        · cases j with
          | zero => simp [update, get?]
          | succ j => simpa [update, get?] using ihr (i :: q) (j :: q')

/-! ### Ancestors and descendants under property updates -/

theorem keysTo_update_id (f : Element → Element) (hf : ∀ e, (f e).key = e.key)
    (d : Nodes) (p q : Path) : keysTo (update f id d p) q = keysTo d q := by
  induction d generalizing p q with
  | nil => simp [update]
  | text s r ih =>
    rcases p with _ | ⟨i, p⟩
    · simp [update]
    · cases i with
      | zero => simp [update]
      | succ i =>
        rcases q with _ | ⟨j, q⟩
        · simp [update, keysTo]
        · cases j with
          | zero => simp [update, keysTo]
          | succ j => simpa [update, keysTo] using ih (i :: p) (j :: q)
  | element e k r ihk ihr =>
    rcases p with _ | ⟨i, p⟩
    · simp [update]
    · cases i with
      | zero =>
        rcases q with _ | ⟨j, q⟩
        · by_cases hp : p = [] <;> simp [update, keysTo, hp]
        · cases j with
          | zero =>
            by_cases hp : p = []
            · by_cases hq : q = [] <;> simp [update, keysTo, hp, hq, hf]
            · by_cases hq : q = []
              · simp [update, keysTo, hp, hq]
              · simp [update, keysTo, hp, hq, ihk p q]
          | succ j =>
            by_cases hp : p = [] <;> simp [update, keysTo, hp]
      | succ i =>
        rcases q with _ | ⟨j, q⟩
        · simp [update, keysTo]
        · cases j with
          | zero => simp [update, keysTo]
          | succ j => simpa [update, keysTo] using ihr (i :: p) (j :: q)

theorem selectUnder_update_id (sel : Selector) (anc : List Key) (f : Element → Element)
    (hf : ∀ e, (f e).key = e.key) (d : Nodes) (p q : Path) :
    selectUnder sel anc (get? (update f id d p) q) = selectUnder sel anc (get? d q) := by
  induction d generalizing p q with
  | nil => simp [update]
  | text s r ih =>
    rcases p with _ | ⟨i, p⟩
    · simp [update]
    · cases i with
      | zero => simp [update]
      | succ i =>
        rcases q with _ | ⟨j, q⟩
        · simp
        · cases j with
          | zero => simp [update, get?]
          | succ j => simpa [update, get?] using ih (i :: p) (j :: q)
  | element e k r ihk ihr =>
    rcases p with _ | ⟨i, p⟩
    · simp [update]
    · cases i with
      | zero =>
        rcases q with _ | ⟨j, q⟩
        · simp
        · cases j with
          | zero =>
            by_cases hp : p = []
            · by_cases hq : q = [] <;> simp [update, get?, hp, hq, selectUnder]
            · by_cases hq : q = []
              · simp [update, get?, hp, hq, selectUnder, select_update_id sel f hf]
              · simpa [update, get?, hp, hq] using ihk p q
          | succ j =>
            by_cases hp : p = [] <;> simp [update, get?, hp]
      | succ i =>
        rcases q with _ | ⟨j, q⟩
        · simp
        · cases j with
          | zero => simp [update, get?]
          | succ j => simpa [update, get?] using ihr (i :: p) (j :: q)

end Nodes

namespace Document

/-! ### Queries and assignments on the page -/

theorem mem_querySelectorAllIn (doc : Document) (p : Path) (pr : Key → Bool) (q : Path)
    (e : Element) (hp : doc.nodes.elementAt p = some e) :
    q ∈ doc.querySelectorAllIn p (fun _ k => pr k) ↔
      p <+: q ∧ q ≠ p ∧ ∃ e', doc.nodes.elementAt q = some e' ∧ pr e'.key = true := by
  obtain ⟨k, hk⟩ := Nodes.elementAt_some_get? _ _ _ hp
  unfold querySelectorAllIn
  simp only [hk, List.mem_map]
  constructor
  · rintro ⟨r, hr, rfl⟩
    have hne : r ≠ [] := by
      rintro rfl
      exact Nodes.nil_not_mem_select _ _ _ hr
    refine ⟨List.prefix_append p r, by simpa using hne, ?_⟩
    obtain ⟨e', he', hpr⟩ := (Nodes.mem_select_simple pr _ k r).1 hr
    refine ⟨e', ?_, hpr⟩
    unfold Nodes.elementAt at he' ⊢
    rw [Nodes.get?_append_path _ _ _ _ _ hk hne]
    exact he'
  · rintro ⟨⟨r, rfl⟩, hne, e', he', hpr⟩
    have hr : r ≠ [] := by
      rintro rfl
      simp at hne
    refine ⟨r, ?_, rfl⟩
    apply (Nodes.mem_select_simple pr _ k r).2
    refine ⟨e', ?_, hpr⟩
    unfold Nodes.elementAt at he' ⊢
    rw [Nodes.get?_append_path _ _ _ _ _ hk hr] at he'
    exact he'

theorem foldl_assign (f : Path → Element → Element) (hf : ∀ p e, f p (f p e) = f p e)
    (l : List Path) (doc : Document) (q : Path) :
    (l.foldl (fun d p => d.assign p (f p)) doc).nodes.elementAt q =
        (if q ∈ l then (doc.nodes.elementAt q).map (f q) else doc.nodes.elementAt q) ∧
    (l.foldl (fun d p => d.assign p (f p)) doc).submitted = doc.submitted ∧
    (l.foldl (fun d p => d.assign p (f p)) doc).bodyClassList = doc.bodyClassList ∧
    (l.foldl (fun d p => d.assign p (f p)) doc).uncaught = doc.uncaught := by
  induction l generalizing doc with
  | nil => simp
  | cons p l ih =>
    simp only [List.foldl_cons]
    obtain ⟨h1, h2, h3, h4⟩ := ih (doc.assign p (f p))
    refine ⟨?_, by rw [h2]; rfl, by rw [h3]; rfl, by rw [h4]; rfl⟩
    rw [h1]
    simp only [assign, Nodes.elementAt_update_id, List.mem_cons]
    by_cases hq : q = p
    · subst hq
      by_cases hl : q ∈ l
      · simp only [hl, if_true, or_true]
        rcases doc.nodes.elementAt q with _ | e
        · rfl
        · simp [hf]
      · simp [hl]
    · simp [hq]

theorem textContent_eq (doc : Document) (q : Path) :
    doc.textContent q = ((doc.nodes.get? q).map Nodes.nodeText).getD "" := by
  unfold textContent
  rcases doc.nodes.get? q with _ | n
  · rfl
  · cases n <;> rfl

theorem textContent_assign (doc : Document) (q q' : Path) (f : Element → Element) :
    (doc.assign q f).textContent q' = doc.textContent q' := by
  rw [textContent_eq, textContent_eq]
  unfold assign
  simp only [Nodes.nodeText_update_id]

theorem querySelectorAll_assign (doc : Document) (sel : Selector) (q : Path)
    (f : Element → Element) (hf : ∀ e, (f e).key = e.key) :
    (doc.assign q f).querySelectorAll sel = doc.querySelectorAll sel := by
  unfold querySelectorAll assign
  exact Nodes.select_update_id sel f hf [] doc.nodes q

theorem querySelector_assign (doc : Document) (sel : Selector) (q : Path)
    (f : Element → Element) (hf : ∀ e, (f e).key = e.key) :
    (doc.assign q f).querySelector sel = doc.querySelector sel := by
  unfold querySelector
  rw [querySelectorAll_assign doc sel q f hf]

theorem prop_assign {α : Type} (doc : Document) (q q' : Path) (f : Element → Element)
    (field : Element → Option α) :
    (doc.assign q f).prop q' field =
      if q' = q then doc.prop q (fun e => field (f e)) else doc.prop q' field := by
  unfold prop assign
  simp only [Nodes.elementAt_update_id]
  split
  · rcases doc.nodes.elementAt q with _ | e <;> rfl
  · rfl

theorem querySelector_mem (doc : Document) (sel : Selector) (q : Path)
    (h : doc.querySelector sel = some q) : q ∈ doc.querySelectorAll sel := by
  unfold querySelector at h
  exact List.mem_of_mem_head? h

theorem querySelector_simple (doc : Document) (pr : Key → Bool) (q : Path)
    (h : doc.querySelector (fun _ k => pr k) = some q) :
    ∃ e, doc.nodes.elementAt q = some e ∧ pr e.key = true :=
  (Nodes.mem_select_simple pr [] doc.nodes q).1 (querySelector_mem doc _ q h)

theorem textContent_setTextContent (doc : Document) (q : Path) (s : String) (e : Element)
    (h : doc.nodes.elementAt q = some e) :
    (doc.setTextContent q s).textContent q = s := by
  obtain ⟨k, hk⟩ := Nodes.elementAt_some_get? _ _ _ h
  unfold textContent setTextContent
  simp only [Nodes.get?_update_self, hk, Option.map_some', Nodes.mapNode]
  by_cases hs : s = ""
  · simp [hs, Nodes.textContent]
  · simp [hs, Nodes.textContent]

/-! ### The named controls of a form -/

theorem querySelectorAllIn_eq (doc : Document) (q : Path) (sel : Selector) :
    doc.querySelectorAllIn q sel =
      (Nodes.selectUnder sel (doc.nodes.keysTo q) (doc.nodes.get? q)).map (fun r => q ++ r) := by
  unfold querySelectorAllIn
  rcases doc.nodes.get? q with _ | n
  · rfl
  · cases n <;> rfl

theorem querySelectorAllIn_assign (doc : Document) (p q : Path) (sel : Selector)
    (f : Element → Element) (hf : ∀ e, (f e).key = e.key) :
    (doc.assign p f).querySelectorAllIn q sel = doc.querySelectorAllIn q sel := by
  rw [querySelectorAllIn_eq, querySelectorAllIn_eq]
  unfold assign
  simp only [Nodes.keysTo_update_id f hf, Nodes.selectUnder_update_id _ _ f hf]

theorem submitShadowed_assign (doc : Document) (p q : Path) (f : Element → Element)
    (hf : ∀ e, (f e).key = e.key) (ht : ∀ e, (f e).type = e.type) :
    (doc.assign p f).submitShadowed q = doc.submitShadowed q := by
  unfold submitShadowed
  rw [querySelectorAllIn_assign doc p q _ f hf]
  have hk : (doc.assign p f).nodes.keysTo q = doc.nodes.keysTo q :=
    Nodes.keysTo_update_id f hf _ _ _
  rw [hk]
  congr 1
  funext c
  have he : (doc.assign p f).nodes.elementAt c =
      if c = p then (doc.nodes.elementAt p).map f else doc.nodes.elementAt c :=
    Nodes.elementAt_update_id f doc.nodes p c
  rw [he]
  by_cases hc : c = p
  · subst hc
    rcases doc.nodes.elementAt c with _ | e
    · simp
    · simp [hf, ht]
  · simp [hc]

theorem submitShadowed_foldl (f : Path → Element → Element)
    (hf : ∀ p e, (f p e).key = e.key) (ht : ∀ p e, (f p e).type = e.type)
    (l : List Path) (doc : Document) (q : Path) :
    (l.foldl (fun d p => d.assign p (f p)) doc).submitShadowed q = doc.submitShadowed q := by
  induction l generalizing doc with
  | nil => rfl
  | cons p l ih =>
    simp only [List.foldl_cons]
    rw [ih, submitShadowed_assign doc p q (f p) (hf p) (ht p)]

end Document
end DOM

namespace JS

/-! ### Comparisons with NaN -/

theorem lt_nan_left (y : Number) : lt Number.nan y = false := by
  simp [lt, position]

theorem lt_nan_right (x : Number) : lt x Number.nan = false := by
  unfold lt
  rcases position x with _ | a <;> simp [position]

/-! ### The digits of `toFixed` -/

theorem digitChar_isDigit (d : Nat) (h : d < 10) : (Nat.digitChar d).isDigit = true := by
  interval_cases d <;> rfl

theorem toDigitsCore_isDigit (fuel n : Nat) (acc : List Char)
    (hacc : ∀ c ∈ acc, c.isDigit = true) :
    ∀ c ∈ Nat.toDigitsCore 10 fuel n acc, c.isDigit = true := by
  induction fuel generalizing n acc with
  | zero => simpa [Nat.toDigitsCore] using hacc
  | succ f ih =>
    have hd : (Nat.digitChar (n % 10)).isDigit = true :=
      digitChar_isDigit _ (Nat.mod_lt _ (by decide))
    have hacc' : ∀ c ∈ Nat.digitChar (n % 10) :: acc, c.isDigit = true := by
      intro c hc
      rcases List.mem_cons.1 hc with rfl | hc
      · exact hd
      · exact hacc c hc
    unfold Nat.toDigitsCore
    dsimp only
    split
    · exact hacc'
    · exact ih _ _ hacc'

theorem toDigits_isDigit (n : Nat) : ∀ c ∈ Nat.toDigits 10 n, c.isDigit = true :=
  toDigitsCore_isDigit _ _ [] (by simp)

theorem toDigitsCore_ne_nil (fuel n : Nat) (acc : List Char) (h : fuel ≠ 0) :
    Nat.toDigitsCore 10 fuel n acc ≠ [] := by
  induction fuel generalizing n acc with
  | zero => exact absurd rfl h
  | succ f ih =>
    unfold Nat.toDigitsCore
    dsimp only
    split
    · simp
    · cases f with
      | zero => simp [Nat.toDigitsCore]
      | succ f => exact ih _ _ (by simp)

theorem padded_digits (n : Nat) :
    (∀ c ∈ List.replicate (2 + 1 - (Nat.toDigits 10 n).length) '0' ++ Nat.toDigits 10 n,
      c.isDigit = true) ∧
    3 ≤ (List.replicate (2 + 1 - (Nat.toDigits 10 n).length) '0' ++
      Nat.toDigits 10 n).length := by
  constructor
  · intro c hc
    rcases List.mem_append.1 hc with hc | hc
    · rw [List.eq_of_mem_replicate hc]
      rfl
    · exact toDigits_isDigit n c hc
  · simp only [List.length_append, List.length_replicate]
    omega

/-- The digits `toFixed(2)` produces for a finite Number below `10 ^ 21`: an
optional minus sign, at least one digit, a point and exactly two digits. -/
theorem toFixed_two_decimals (neg : Bool) (N : Nat) (h : N < 10 ^ 21 * unit) :
    ∃ whole frac : List Char,
      toFixed (Number.fin neg N) 2 =
        String.mk ((if neg ∧ N ≠ 0 then ['-'] else []) ++ (whole ++ '.' :: frac)) ∧
      whole ≠ [] ∧ frac.length = 2 ∧
      (∀ c ∈ whole, c.isDigit = true) ∧ ∀ c ∈ frac, c.isDigit = true := by
  have hlt : ¬ 10 ^ 21 * unit ≤ N := Nat.not_le.2 h
  obtain ⟨hm, hlen⟩ := padded_digits ((2 * N * 10 ^ 2 + unit) / (2 * unit))
  have hfix : toFixed (Number.fin neg N) 2 =
      String.mk ((if neg ∧ N ≠ 0 then ['-'] else []) ++
        ((List.replicate (2 + 1 - (Nat.toDigits 10
              ((2 * N * 10 ^ 2 + unit) / (2 * unit))).length) '0' ++
            Nat.toDigits 10 ((2 * N * 10 ^ 2 + unit) / (2 * unit))).take
          ((List.replicate (2 + 1 - (Nat.toDigits 10
              ((2 * N * 10 ^ 2 + unit) / (2 * unit))).length) '0' ++
            Nat.toDigits 10 ((2 * N * 10 ^ 2 + unit) / (2 * unit))).length - 2) ++
          '.' :: (List.replicate (2 + 1 - (Nat.toDigits 10
              ((2 * N * 10 ^ 2 + unit) / (2 * unit))).length) '0' ++
            Nat.toDigits 10 ((2 * N * 10 ^ 2 + unit) / (2 * unit))).drop
          ((List.replicate (2 + 1 - (Nat.toDigits 10
              ((2 * N * 10 ^ 2 + unit) / (2 * unit))).length) '0' ++
            Nat.toDigits 10 ((2 * N * 10 ^ 2 + unit) / (2 * unit))).length - 2))) := by
    simp only [toFixed, if_neg hlt]
    rfl
  generalize List.replicate (2 + 1 - (Nat.toDigits 10
      ((2 * N * 10 ^ 2 + unit) / (2 * unit))).length) '0' ++
    Nat.toDigits 10 ((2 * N * 10 ^ 2 + unit) / (2 * unit)) = m at hm hlen hfix
  refine ⟨m.take (m.length - 2), m.drop (m.length - 2), hfix, ?_, ?_, ?_, ?_⟩
  · intro h0
    have := congrArg List.length h0
    simp at this
    omega
  · simp
    omega
  · intro c hc
    exact hm c (List.mem_of_mem_take hc)
  · intro c hc
    exact hm c (List.mem_of_mem_drop hc)

/-! ### Binary length and exact rounding -/

theorem bitLenAux_zero (f : Nat) : bitLenAux f 0 = 0 := by
  cases f <;> simp [bitLenAux]

theorem bitLenAux_spec (f n : Nat) (h : n ≤ f) :
    n < 2 ^ bitLenAux f n ∧ (0 < n → 2 ^ (bitLenAux f n - 1) ≤ n) := by
  induction f generalizing n with
  | zero =>
    have : n = 0 := by omega
    subst this
    simp [bitLenAux]
  | succ f ih =>
    by_cases hn : n = 0
    · subst hn
      simp [bitLenAux]
    · have hle : n / 2 ≤ f := by omega
      obtain ⟨h1, h2⟩ := ih (n / 2) hle
      simp only [bitLenAux, hn, if_false, Nat.add_sub_cancel]
      constructor
      · rw [pow_succ]
        omega
      · intro _
        by_cases h0 : n / 2 = 0
        · rw [h0, bitLenAux_zero]
          simp
          omega
        · have hpos : 0 < n / 2 := Nat.pos_of_ne_zero h0
          have hb : bitLenAux f (n / 2) ≠ 0 := by
            intro hb
            rw [hb] at h1
            simp at h1
            omega
          have h3 := h2 hpos
          obtain ⟨b, hb'⟩ : ∃ b, bitLenAux f (n / 2) = b + 1 :=
            ⟨bitLenAux f (n / 2) - 1, by omega⟩
          rw [hb'] at h3 ⊢
          simp only [Nat.add_sub_cancel] at h3
          rw [pow_succ]
          omega

theorem bitLen_lt (n : Nat) : n < 2 ^ bitLen n := (bitLenAux_spec n n le_rfl).1

theorem bitLen_le (n : Nat) (h : 0 < n) : 2 ^ (bitLen n - 1) ≤ n :=
  (bitLenAux_spec n n le_rfl).2 h

theorem bitLen_zero : bitLen 0 = 0 := rfl

theorem bitLen_le_of_lt (n k : Nat) (h : n < 2 ^ k) : bitLen n ≤ k := by
  by_contra hc
  have hk : k ≤ bitLen n - 1 := by omega
  have hpos : 0 < n := by
    rcases Nat.eq_zero_or_pos n with h0 | h0
    · subst h0
      simp [bitLen_zero] at hc
    · exact h0
  have := bitLen_le n hpos
  have h2 : 2 ^ k ≤ 2 ^ (bitLen n - 1) := Nat.pow_le_pow_right (by decide) hk
  omega

theorem lt_bitLen_of_le (n k : Nat) (h : 2 ^ k ≤ n) : k < bitLen n := by
  by_contra hc
  have hk : bitLen n ≤ k := by omega
  have := bitLen_lt n
  have h2 : 2 ^ bitLen n ≤ 2 ^ k := Nat.pow_le_pow_right (by decide) hk
  omega

theorem roundHalfEven_of_dvd (p q : Nat) (hq : 0 < q) (h : q ∣ p) :
    roundHalfEven p q = p / q := by
  unfold roundHalfEven
  have : p % q = 0 := Nat.mod_eq_zero_of_dvd h
  simp [this, hq]

theorem div_le_roundHalfEven (p q : Nat) : p / q ≤ roundHalfEven p q := by
  unfold roundHalfEven
  dsimp only
  split
  · exact le_rfl
  · split
    · omega
    · split <;> omega

theorem roundMag_exact (p : Nat) (h : 2 ^ (bitLen p - 53) ∣ p) : roundMag p 1 = p := by
  unfold roundMag
  simp only [Nat.div_one, one_mul]
  rw [roundHalfEven_of_dvd _ _ (Nat.pos_pow_of_pos _ (by decide)) h]
  exact Nat.div_mul_cancel h

theorem pow_le_roundMag (p k : Nat) (h : 2 ^ k ≤ p) : 2 ^ k ≤ roundMag p 1 := by
  unfold roundMag
  simp only [Nat.div_one, one_mul]
  have hk := lt_bitLen_of_le p k h
  have hpos : 0 < p := lt_of_lt_of_le (Nat.pos_pow_of_pos _ (by decide)) h
  have hb := bitLen_le p hpos
  by_cases hs : bitLen p ≤ 53
  · have h0 : bitLen p - 53 = 0 := by omega
    rw [h0]
    simp only [pow_zero, Nat.mul_one]
    exact le_trans h (by simpa using div_le_roundHalfEven p 1)
  · have hdiv : 2 ^ 52 ≤ p / 2 ^ (bitLen p - 53) := by
      rw [Nat.le_div_iff_mul_le (Nat.pos_pow_of_pos _ (by decide)), ← pow_add]
      have : 52 + (bitLen p - 53) = bitLen p - 1 := by omega
      rw [this]
      exact hb
    have h1 := div_le_roundHalfEven p (2 ^ (bitLen p - 53))
    calc 2 ^ k ≤ 2 ^ (bitLen p - 1) := Nat.pow_le_pow_right (by decide) (by omega)
      _ = 2 ^ 52 * 2 ^ (bitLen p - 53) := by
          rw [← pow_add]
          congr 1
          omega
      _ ≤ roundHalfEven p (2 ^ (bitLen p - 53)) * 2 ^ (bitLen p - 53) :=
          Nat.mul_le_mul_right _ (le_trans hdiv h1)

theorem unit_eq : unit = 2 ^ 1074 := rfl

theorem unit_pos : 0 < unit := Nat.pos_pow_of_pos _ (by decide)

theorem overflow_eq : overflow = 2 ^ 1024 * unit := by
  rw [unit_eq, ← pow_add]
  rfl

/-- An integer below `2 ^ 53` is a double: converting it is exact. -/
theorem ofRatio_int (neg : Bool) (m : Nat) (h : m < 2 ^ 53) :
    ofRatio neg (m * unit) 1 = Number.fin neg (m * unit) := by
  have hlt : m * unit < 2 ^ (53 + 1074) := by
    rw [pow_add, ← unit_eq]
    exact Nat.mul_lt_mul_of_pos_right h unit_pos
  have hb : bitLen (m * unit) ≤ 53 + 1074 := bitLen_le_of_lt _ _ hlt
  have hdvd : 2 ^ (bitLen (m * unit) - 53) ∣ m * unit := by
    apply Dvd.dvd.mul_left
    generalize bitLen (m * unit) = b at hb
    rw [unit_eq]
    exact pow_dvd_pow 2 (by omega)
  unfold ofRatio
  simp only [roundMag_exact _ hdvd]
  have hov : ¬ overflow ≤ m * unit := by
    rw [overflow_eq, not_le]
    apply Nat.mul_lt_mul_of_pos_right _ unit_pos
    exact lt_trans h (by decide)
  simp [hov]

/-- An integer from `2 ^ 53` on does not convert to a double below
`2 ^ 53`. -/
theorem ofRatio_big_ne (neg : Bool) (v m : Nat) (hv : 2 ^ 53 ≤ v) (hm : m < 2 ^ 53) :
    ofRatio neg (v * unit) 1 ≠ Number.fin neg (m * unit) := by
  have hle : 2 ^ (53 + 1074) ≤ v * unit := by
    rw [pow_add, ← unit_eq]
    exact Nat.mul_le_mul_right _ hv
  have hr := pow_le_roundMag _ _ hle
  have hlt : m * unit < 2 ^ (53 + 1074) := by
    rw [pow_add, ← unit_eq]
    exact Nat.mul_lt_mul_of_pos_right hm unit_pos
  unfold ofRatio
  dsimp only
  split
  · simp
  · intro heq
    simp only [Number.fin.injEq, true_and] at heq
    omega

/-! ### Decimal digits of a natural number -/

theorem toDigitsCore_eq (n : Nat) :
    ∀ fuel acc, n < fuel →
      Nat.toDigitsCore 10 fuel n acc = Nat.toDigitsCore 10 (n + 1) n [] ++ acc := by
  induction n using Nat.strong_induction_on with
  | _ n ih =>
    intro fuel acc hf
    obtain ⟨f, rfl⟩ : ∃ f, fuel = f + 1 := ⟨fuel - 1, by omega⟩
    by_cases h0 : n / 10 = 0
    · simp [Nat.toDigitsCore, h0]
    · have hlt : n / 10 < n := by omega
      have h1 := ih (n / 10) hlt f (Nat.digitChar (n % 10) :: acc) (by omega)
      have h2 := ih (n / 10) hlt n [Nat.digitChar (n % 10)] hlt
      simp only [Nat.toDigitsCore, h0, if_false]
      rw [h1, h2]
      simp

theorem toDigits_of_lt (n : Nat) (h : n < 10) : Nat.toDigits 10 n = [Nat.digitChar n] := by
  have h0 : n / 10 = 0 := by omega
  have h1 : n % 10 = n := by omega
  simp [Nat.toDigits, Nat.toDigitsCore, h0, h1]

theorem toDigits_of_ge (n : Nat) (h : 10 ≤ n) :
    Nat.toDigits 10 n = Nat.toDigits 10 (n / 10) ++ [Nat.digitChar (n % 10)] := by
  have h0 : n / 10 ≠ 0 := by omega
  have hlt : n / 10 < n := by omega
  unfold Nat.toDigits
  simp only [Nat.toDigitsCore, h0, if_false]
  exact toDigitsCore_eq (n / 10) n _ hlt

theorem toDigits_ne_nil (n : Nat) : Nat.toDigits 10 n ≠ [] :=
  toDigitsCore_ne_nil _ _ _ (by simp)

theorem lt_pow_length_toDigits (n : Nat) : n < 10 ^ (Nat.toDigits 10 n).length := by
  induction n using Nat.strong_induction_on with
  | _ n ih =>
    by_cases h : n < 10
    · rw [toDigits_of_lt n h]
      simpa using h
    · have hge : 10 ≤ n := by omega
      rw [toDigits_of_ge n hge]
      have := ih (n / 10) (by omega)
      simp only [List.length_append, List.length_singleton, pow_succ]
      omega

theorem pow_length_toDigits_le (n : Nat) (hn : 0 < n) :
    10 ^ ((Nat.toDigits 10 n).length - 1) ≤ n := by
  induction n using Nat.strong_induction_on with
  | _ n ih =>
    by_cases h : n < 10
    · rw [toDigits_of_lt n h]
      simpa using hn
    · have hge : 10 ≤ n := by omega
      rw [toDigits_of_ge n hge]
      have h1 := ih (n / 10) (by omega) (by omega)
      have hne := toDigits_ne_nil (n / 10)
      have hlen : 0 < (Nat.toDigits 10 (n / 10)).length := List.length_pos.2 hne
      simp only [List.length_append, List.length_singleton, Nat.add_sub_cancel]
      obtain ⟨l, hl⟩ : ∃ l, (Nat.toDigits 10 (n / 10)).length = l + 1 :=
        ⟨(Nat.toDigits 10 (n / 10)).length - 1, by omega⟩
      rw [hl] at h1 ⊢
      simp only [Nat.add_sub_cancel] at h1
      rw [pow_succ]
      omega

theorem toDigits_mul_pow (a t : Nat) (ha : 0 < a) :
    Nat.toDigits 10 (a * 10 ^ t) = Nat.toDigits 10 a ++ List.replicate t '0' := by
  induction t with
  | zero => simp
  | succ t ih =>
    have hpos : 0 < a * 10 ^ t := Nat.mul_pos ha (Nat.pos_pow_of_pos _ (by decide))
    have hge : 10 ≤ a * 10 ^ (t + 1) := by
      rw [pow_succ, ← Nat.mul_assoc]
      omega
    rw [toDigits_of_ge _ hge]
    have hdiv : a * 10 ^ (t + 1) / 10 = a * 10 ^ t := by
      rw [pow_succ, ← Nat.mul_assoc]
      exact Nat.mul_div_cancel _ (by decide)
    have hmod : a * 10 ^ (t + 1) % 10 = 0 := by
      rw [pow_succ, ← Nat.mul_assoc]
      exact Nat.mul_mod_left _ _
    rw [hdiv, hmod, ih, List.replicate_succ', List.append_assoc]
    rfl

/-! ### Integers as Numbers and their text -/

theorem decExp_int (m : Nat) (hm : 0 < m) :
    decExp (m * unit) unit = ((Nat.toDigits 10 m).length : Int) := by
  unfold decExp
  have hle : unit ≤ m * unit := Nat.le_mul_of_pos_left _ hm
  simp only [hle, if_true, Nat.mul_div_cancel _ unit_pos]

theorem roundTrips_int (m c j : Nat) (hm : m < 2 ^ 53) :
    roundTrips (m * unit) c (j : Int) = decide (c * 10 ^ j = m) := by
  unfold roundTrips ofDecimal
  have h1 : ((j : Int)).toNat = j := Int.toNat_natCast j
  have h2 : (-(j : Int)).toNat = 0 := by
    apply Int.toNat_eq_zero.2
    omega
  rw [h1, h2, pow_zero]
  apply decide_eq_decide.2
  by_cases hv : c * 10 ^ j < 2 ^ 53
  · rw [ofRatio_int false _ hv]
    constructor
    · intro h
      simp only [Number.fin.injEq, true_and] at h
      exact Nat.eq_of_mul_eq_mul_right unit_pos h
    · intro h
      rw [h]
  · constructor
    · intro h
      exact absurd h (ofRatio_big_ne false _ m (by omega) hm)
    · intro h
      omega

theorem candidate_int (m k : Nat) (_hm0 : 0 < m) (hm : m < 2 ^ 53)
    (hk : k ≤ (Nat.toDigits 10 m).length) :
    candidate (m * unit) ((Nat.toDigits 10 m).length : Int) k =
      if 10 ^ ((Nat.toDigits 10 m).length - k) ∣ m
      then some (m / 10 ^ ((Nat.toDigits 10 m).length - k)) else none := by
  generalize hL : (Nat.toDigits 10 m).length = L at hk ⊢
  obtain ⟨j, rfl⟩ : ∃ j, L = k + j := ⟨L - k, by omega⟩
  have ht : ((k + j : Nat) : Int) - (k : Int) = (j : Int) := by
    push_cast
    omega
  have hpow : 0 < 10 ^ j := Nat.pos_pow_of_pos _ (by decide)
  have hhi : ¬ (m / 10 ^ j + 1) * 10 ^ j = m := by
    have := Nat.lt_mul_div_succ m hpow
    intro h
    rw [Nat.mul_comm] at h
    omega
  have hlo : (m / 10 ^ j * 10 ^ j = m) ↔ 10 ^ j ∣ m := by
    constructor
    · intro h
      exact Dvd.intro_left _ h
    · intro h
      exact Nat.div_mul_cancel h
  unfold candidate
  simp only [ht]
  have h1 : ((j : Int)).toNat = j := Int.toNat_natCast j
  have h2 : (-(j : Int)).toNat = 0 := by
    apply Int.toNat_eq_zero.2
    omega
  have hdiv : m * unit * 10 ^ 0 / (unit * 10 ^ j) = m / 10 ^ j := by
    rw [pow_zero, Nat.mul_one, Nat.mul_comm m unit]
    exact Nat.mul_div_mul_left _ _ unit_pos
  simp only [h1, h2, hdiv, roundTrips_int m _ j hm, hhi, decide_False, Nat.add_sub_cancel_left]
  by_cases hd : 10 ^ j ∣ m
  · simp [hd, hlo.2 hd]
  · have : ¬ m / 10 ^ j * 10 ^ j = m := fun h => hd (hlo.1 h)
    simp [hd, this]

theorem shortestFrom_succ (N : Nat) (e : Int) (f k : Nat) :
    shortestFrom N e (f + 1) k =
      match candidate N e k with
      | some n => (n, k)
      | none => shortestFrom N e f (k + 1) := rfl

theorem shortestFrom_int (m : Nat) (hm0 : 0 < m) (hm : m < 2 ^ 53) :
    ∀ fuel k, k ≤ (Nat.toDigits 10 m).length → (Nat.toDigits 10 m).length - k < fuel →
      ∃ k', k ≤ k' ∧ k' ≤ (Nat.toDigits 10 m).length ∧
        10 ^ ((Nat.toDigits 10 m).length - k') ∣ m ∧
        shortestFrom (m * unit) ((Nat.toDigits 10 m).length : Int) fuel k =
          (m / 10 ^ ((Nat.toDigits 10 m).length - k'), k') := by
  intro fuel
  induction fuel with
  | zero =>
    intro k _ h
    omega
  | succ f ih =>
    intro k hk hf
    by_cases hd : 10 ^ ((Nat.toDigits 10 m).length - k) ∣ m
    · refine ⟨k, le_rfl, hk, hd, ?_⟩
      rw [shortestFrom_succ, candidate_int m k hm0 hm hk, if_pos hd]
    · have hlt : k < (Nat.toDigits 10 m).length := by
        by_contra hc
        have : (Nat.toDigits 10 m).length - k = 0 := by omega
        rw [this] at hd
        simp at hd
      obtain ⟨k', h1, h2, h3, h4⟩ := ih (k + 1) (by omega) (by omega)
      refine ⟨k', by omega, h2, h3, ?_⟩
      rw [shortestFrom_succ, candidate_int m k hm0 hm hk, if_neg hd]
      exact h4

theorem length_toDigits_le (m : Nat) (hm0 : 0 < m) (hm : m < 2 ^ 53) :
    (Nat.toDigits 10 m).length ≤ 16 := by
  have h1 := pow_length_toDigits_le m hm0
  have h2 : 10 ^ ((Nat.toDigits 10 m).length - 1) < 10 ^ 16 :=
    lt_of_le_of_lt h1 (lt_trans hm (by decide))
  have := (Nat.pow_lt_pow_iff_right (by decide : 1 < 10)).1 h2
  omega

theorem magToString_int (m : Nat) (hm0 : 0 < m) (hm : m < 2 ^ 53) :
    magToString (m * unit) = Nat.toDigits 10 m := by
  have hL16 := length_toDigits_le m hm0 hm
  have hL1 : 1 ≤ (Nat.toDigits 10 m).length := List.length_pos.2 (toDigits_ne_nil m)
  obtain ⟨k', h1, h2, h3, h4⟩ := shortestFrom_int m hm0 hm 17 1 hL1 (by omega)
  have hltL := lt_pow_length_toDigits m
  unfold magToString
  simp only [decExp_int m hm0, h4]
  generalize hL : (Nat.toDigits 10 m).length = L at *
  obtain ⟨j, rfl⟩ : ∃ j, L = k' + j := ⟨L - k', by omega⟩
  simp only [Nat.add_sub_cancel_left] at h3 ⊢
  have hpow : 0 < 10 ^ j := Nat.pos_pow_of_pos _ (by decide)
  have hlt : m / 10 ^ j < 10 ^ k' := by
    apply Nat.div_lt_of_lt_mul
    rw [← pow_add, Nat.add_comm]
    exact hltL
  have hne : ¬ m / 10 ^ j = 10 ^ k' := by omega
  have hpos : 0 < m / 10 ^ j := Nat.div_pos (Nat.le_of_dvd hm0 h3) hpow
  simp only [hne, if_false]
  unfold layout
  have hc : ((k' : Int) ≤ ((k' + j : Nat) : Int) ∧ ((k' + j : Nat) : Int) ≤ 21) := by
    constructor <;> omega
  have ht : (((k' + j : Nat) : Int) - (k' : Int)).toNat = j := by
    omega
  simp only [hc, and_self, if_true, ht]
  rw [← toDigits_mul_pow _ _ hpos, Nat.div_mul_cancel h3]

theorem toString_fin_int (neg : Bool) (m : Nat) (hm0 : 0 < m) (hm : m < 2 ^ 53) :
    JS.toString (Number.fin neg (m * unit)) =
      String.mk ((if neg then ['-'] else []) ++ Nat.toDigits 10 m) := by
  have hne : m * unit ≠ 0 := Nat.mul_ne_zero (by omega) (by have := unit_pos; omega)
  simp only [JS.toString, hne, if_false, magToString_int m hm0 hm]

theorem ofRatio_pow53 (neg : Bool) :
    ofRatio neg (2 ^ 53 * unit) 1 = Number.fin neg (2 ^ 53 * unit) := by
  cases neg <;> decide!

theorem ofRatio_int_le (neg : Bool) (m : Nat) (h : m ≤ 2 ^ 53) :
    ofRatio neg (m * unit) 1 = Number.fin neg (m * unit) := by
  rcases Nat.lt_or_eq_of_le h with h | h
  · exact ofRatio_int neg m h
  · rw [h]
    exact ofRatio_pow53 neg

theorem ofInt_natCast (m : Nat) (h : m ≤ 2 ^ 53) :
    ofInt (m : Int) = Number.fin false (m * unit) := by
  unfold ofInt
  have : ¬ ((m : Int) < 0) := by omega
  simp only [this, decide_False, Int.natAbs_ofNat]
  exact ofRatio_int_le false m h

theorem ofInt_neg_natCast (m : Nat) (h0 : 0 < m) (h : m ≤ 2 ^ 53) :
    ofInt (-(m : Int)) = Number.fin true (m * unit) := by
  unfold ofInt
  have : (-(m : Int) < 0) := by omega
  simp only [this, decide_True, Int.natAbs_neg, Int.natAbs_ofNat]
  exact ofRatio_int_le true m h

theorem toString_ofInt (z : Int) (h1 : -(2 ^ 53) < z) (h2 : z ≤ 2 ^ 53) :
    JS.toString (ofInt z) = decimalText z := by
  rcases Int.lt_trichotomy z 0 with hz | hz | hz
  · obtain ⟨m, rfl⟩ : ∃ m : Nat, z = -(m : Int) := ⟨z.natAbs, by omega⟩
    have hm0 : 0 < m := by omega
    have hm : m < 2 ^ 53 := by omega
    rw [ofInt_neg_natCast m hm0 (le_of_lt hm), toString_fin_int true m hm0 hm]
    simp only [decimalText, hz, if_true, Int.natAbs_neg, Int.natAbs_ofNat]
    rfl
  · subst hz
    decide
  · obtain ⟨m, rfl⟩ : ∃ m : Nat, z = (m : Int) := ⟨z.natAbs, by omega⟩
    have hm0 : 0 < m := by omega
    have hm : m ≤ 2 ^ 53 := by omega
    have hnz : ¬ ((m : Int) < 0) := by omega
    rw [ofInt_natCast m hm]
    simp only [decimalText, hnz, if_false, Int.natAbs_ofNat]
    rcases Nat.lt_or_eq_of_le hm with hlt | heq
    · rw [toString_fin_int false m hm0 hlt]
      rfl
    · subst heq
      decide!

theorem add_ofInt_one (n : Int) (h1 : -(2 ^ 53) ≤ n) (h2 : n < 2 ^ 53) :
    add (ofInt n) one = ofInt (n + 1) := by
  rcases Int.lt_or_le n 0 with hn | hn
  · obtain ⟨m, rfl⟩ : ∃ m : Nat, n = -(m : Int) := ⟨n.natAbs, by omega⟩
    have hm0 : 0 < m := by omega
    have hm : m ≤ 2 ^ 53 := by omega
    rw [ofInt_neg_natCast m hm0 hm]
    obtain ⟨a, rfl⟩ : ∃ a, m = a + 1 := ⟨m - 1, by omega⟩
    have hsub : (a + 1) * unit - unit = a * unit := by
      rw [Nat.add_mul, Nat.one_mul, Nat.add_sub_cancel]
    have hup := unit_pos
    by_cases ha : a = 0
    · subst ha
      simp only [zero_add, Nat.one_mul, one, add]
      simp
      rfl
    · have hlt : unit < (a + 1) * unit := by
        rw [Nat.add_mul, Nat.one_mul]
        have : 0 < a * unit := Nat.mul_pos (Nat.pos_of_ne_zero ha) hup
        omega
      have hne : ¬ (a + 1) * unit = unit := by omega
      have hz : (-((a + 1 : Nat) : Int) + 1) = -(a : Int) := by
        push_cast
        omega
      rw [hz, ofInt_neg_natCast a (Nat.pos_of_ne_zero ha) (by omega)]
      simp only [one, add, hne, hlt, if_true, if_false, hsub]
      simp only [Bool.true_eq_false, if_false]
      exact ofRatio_int_le true a (by omega)
  · obtain ⟨m, rfl⟩ : ∃ m : Nat, n = (m : Int) := ⟨n.natAbs, by omega⟩
    have hm : m + 1 ≤ 2 ^ 53 := by omega
    rw [ofInt_natCast m (by omega)]
    have hz : ((m : Int) + 1) = ((m + 1 : Nat) : Int) := by push_cast; rfl
    rw [hz, ofInt_natCast (m + 1) hm]
    simp only [one, add, if_true]
    have : m * unit + unit = (m + 1) * unit := by
      rw [Nat.add_mul, Nat.one_mul]
    rw [this]
    exact ofRatio_int_le false (m + 1) hm

theorem orElse_ofInt_zero (n : Int) (h1 : -(2 ^ 53) ≤ n) (h2 : n ≤ 2 ^ 53) :
    orElse (ofInt n) zero = ofInt n := by
  unfold orElse
  split
  · rfl
  · rename_i hb
    rcases Int.lt_trichotomy n 0 with hn | hn | hn
    · obtain ⟨m, rfl⟩ : ∃ m : Nat, n = -(m : Int) := ⟨n.natAbs, by omega⟩
      have hm0 : 0 < m := by omega
      rw [ofInt_neg_natCast m hm0 (by omega)] at hb
      have : m * unit ≠ 0 := Nat.mul_ne_zero (by omega) (by have := unit_pos; omega)
      simp [toBoolean, this] at hb
    · subst hn
      decide
    · obtain ⟨m, rfl⟩ : ∃ m : Nat, n = (m : Int) := ⟨n.natAbs, by omega⟩
      have hm0 : 0 < m := by omega
      rw [ofInt_natCast m (by omega)] at hb
      have : m * unit ≠ 0 := Nat.mul_ne_zero (by omega) (by have := unit_pos; omega)
      simp [toBoolean, this] at hb

end JS

namespace Marketplace

open JS DOM

/-! ### Price range validation -/

/-- The two price fields `initFilters` finds are different elements, and both
are elements of the page. -/
theorem initFilters_fields (doc : Document) (minQ maxQ : Path)
    (h : initFilters doc = some (minQ, maxQ)) :
    minQ ≠ maxQ ∧ (∃ e, doc.nodes.elementAt minQ = some e) ∧
      ∃ e, doc.nodes.elementAt maxQ = some e := by
  unfold initFilters at h
  split at h
  · rename_i a b ha hb
    simp only [Option.some.injEq, Prod.mk.injEq] at h
    obtain ⟨rfl, rfl⟩ := h
    obtain ⟨e1, he1, hk1⟩ := Document.querySelector_simple doc
      (fun k => decide (k.tag = "input") && decide (k.name = "min_price")) a ha
    obtain ⟨e2, he2, hk2⟩ := Document.querySelector_simple doc
      (fun k => decide (k.tag = "input") && decide (k.name = "max_price")) b hb
    refine ⟨?_, ⟨e1, he1⟩, ⟨e2, he2⟩⟩
    rintro rfl
    rw [he1] at he2
    cases he2
    simp only [Bool.and_eq_true, decide_eq_true_eq] at hk1 hk2
    rw [hk1.2] at hk2
    exact absurd hk2.2 (by decide)
  · cases h

/-- C2 (as amended): when the two fields parse as numbers `a > b`, an input
event on the min-price field rewrites the max-price field to the text of `a`
and leaves the min-price field alone provided `b` is not zero, and an input
event on the max-price field rewrites the min-price field to the text of `b`
and leaves the max-price field alone provided `a` is not zero. -/
theorem price_clamp_rewrites (doc : Document) (minQ maxQ : Path) (a b : Number)
    (hinit : initFilters doc = some (minQ, maxQ))
    (ha : parseFloat (toStr (doc.prop minQ Element.value)) = a)
    (hb : parseFloat (toStr (doc.prop maxQ Element.value)) = b)
    (hgt : gt a b = true) :
    (toBoolean b = true →
      (minPriceListener minQ maxQ doc).prop maxQ Element.value = some (JS.toString a) ∧
      (minPriceListener minQ maxQ doc).prop minQ Element.value =
        doc.prop minQ Element.value) ∧
    (toBoolean a = true →
      (maxPriceListener minQ maxQ doc).prop minQ Element.value = some (JS.toString b) ∧
      (maxPriceListener minQ maxQ doc).prop maxQ Element.value =
        doc.prop maxQ Element.value) := by
  obtain ⟨hne, ⟨e1, he1⟩, ⟨e2, he2⟩⟩ := initFilters_fields doc minQ maxQ hinit
  constructor
  · intro hb0
    have hstep : minPriceListener minQ maxQ doc =
        doc.assign maxQ (fun e => { e with value := some (JS.toString a) }) := by
      simp [minPriceListener, ha, hb, hb0, hgt]
    rw [hstep]
    constructor
    · rw [Document.prop_assign]
      simp [Document.prop, he2]
    · rw [Document.prop_assign]
      simp [hne]
  · intro ha0
    have hlt : lt b a = true := hgt
    have hstep : maxPriceListener minQ maxQ doc =
        doc.assign minQ (fun e => { e with value := some (JS.toString b) }) := by
      simp [maxPriceListener, ha, hb, ha0, hlt]
    rw [hstep]
    constructor
    · rw [Document.prop_assign]
      simp [Document.prop, he1]
    · rw [Document.prop_assign]
      simp [Ne.symm hne]

/-- C2, witness: min "50" typed over max "20". -/
theorem price_clamp_rewrites_witness :
    (toBoolean (parseFloat "20") = true →
      (minPriceListener [0, 0] [0, 1] (priceForm "50" "20")).prop [0, 1] Element.value =
        some (JS.toString (parseFloat "50")) ∧
      (minPriceListener [0, 0] [0, 1] (priceForm "50" "20")).prop [0, 0] Element.value =
        (priceForm "50" "20").prop [0, 0] Element.value) ∧
    (toBoolean (parseFloat "50") = true →
      (maxPriceListener [0, 0] [0, 1] (priceForm "50" "20")).prop [0, 0] Element.value =
        some (JS.toString (parseFloat "20")) ∧
      (maxPriceListener [0, 0] [0, 1] (priceForm "50" "20")).prop [0, 1] Element.value =
        (priceForm "50" "20").prop [0, 1] Element.value) :=
  price_clamp_rewrites (priceForm "50" "20") [0, 0] [0, 1] (parseFloat "50") (parseFloat "20")
    (by decide) rfl rfl (by decide!)

/-- C2, counterexample: with min "5" and max "0" both fields parse as
numbers and 5 > 0, yet the input event on the min-price field leaves the
max-price field at "0", which is not the text "5" of min. -/
theorem price_clamp_zero_max_counterexample :
    initFilters (priceForm "5" "0") = some ([0, 0], [0, 1]) ∧
    parseFloat "5" ≠ Number.nan ∧ parseFloat "0" ≠ Number.nan ∧
    gt (parseFloat "5") (parseFloat "0") = true ∧
    JS.toString (parseFloat "5") = "5" ∧
    (minPriceListener [0, 0] [0, 1] (priceForm "5" "0")).prop [0, 1] Element.value =
      some "0" ∧
    (minPriceListener [0, 0] [0, 1] (priceForm "5" "0")).prop [0, 1] Element.value ≠
      some (JS.toString (parseFloat "5")) := by
  decide!

/-- C7: an input event on either price field changes nothing when either
field fails to parse as a number, as the empty value does; and an input
event on the min-price field changes nothing when the max-price field parses
to zero of either sign, whatever the min-price field holds. -/
theorem price_listeners_skip (doc : Document) (minQ maxQ : Path) :
    (parseFloat (toStr (doc.prop minQ Element.value)) = Number.nan ∨
      parseFloat (toStr (doc.prop maxQ Element.value)) = Number.nan →
        minPriceListener minQ maxQ doc = doc ∧ maxPriceListener minQ maxQ doc = doc) ∧
    (∀ neg, parseFloat (toStr (doc.prop maxQ Element.value)) = Number.fin neg 0 →
      minPriceListener minQ maxQ doc = doc) ∧
    parseFloat "" = Number.nan := by
  refine ⟨?_, ?_, by decide⟩
  · rintro (h | h)
    · simp [minPriceListener, maxPriceListener, h, gt, lt_nan_right, toBoolean]
    · simp [minPriceListener, maxPriceListener, h, gt, lt_nan_left, toBoolean]
  · intro neg h
    simp [minPriceListener, h, toBoolean]

/-- C7, witness: an empty min-price field next to max "20", and min "5" next
to max "0". -/
theorem price_listeners_skip_witness :
    (minPriceListener [0, 0] [0, 1] (priceForm "" "20") = priceForm "" "20" ∧
      maxPriceListener [0, 0] [0, 1] (priceForm "" "20") = priceForm "" "20") ∧
    minPriceListener [0, 0] [0, 1] (priceForm "5" "0") = priceForm "5" "0" :=
  ⟨(price_listeners_skip (priceForm "" "20") [0, 0] [0, 1]).1 (Or.inl (by decide)),
   (price_listeners_skip (priceForm "5" "0") [0, 0] [0, 1]).2.1 false (by decide!)⟩

/-! ### The loading overlay -/

theorem select_overlay_copies (anc : List Key) (n : Nat) :
    Nodes.select DOM.loadingOverlay anc (Nodes.copies loadingOverlayNode n) =
      (List.range n).map (fun i => [i]) := by
  unfold loadingOverlayNode
  exact Nodes.select_copies _ anc _ _ (by simp [DOM.loadingOverlay, createElement])
    (by simp [Nodes.select, DOM.loadingOverlay, createElement]) n

theorem showLoading_iterate (doc : Document) (n : Nat) :
    (showLoading^[n] doc).nodes = doc.nodes.append (Nodes.copies loadingOverlayNode n) ∧
    (showLoading^[n] doc).submitted = doc.submitted := by
  induction n with
  | zero => simp [Nodes.copies, Nodes.append_nil]
  | succ n ih =>
    rw [Function.iterate_succ_apply']
    simp only [showLoading, Document.appendToBody, ih.1, ih.2, Nodes.append_assoc,
      ← Nodes.copies_succ_last, and_self]

theorem hideLoading_nodes (d : Document) :
    (hideLoading d).nodes =
      (match (Nodes.select DOM.loadingOverlay [] d.nodes).head? with
        | some q => d.nodes.remove q
        | none => d.nodes) ∧
    (hideLoading d).bodyClassList = classListRemove d.bodyClassList "loading" := by
  unfold hideLoading Document.querySelector Document.querySelectorAll
  dsimp only
  cases (Nodes.select DOM.loadingOverlay [] d.nodes).head? <;> exact ⟨rfl, rfl⟩

/-- C3: from a page without an overlay node, `n ≥ 1` calls of `showLoading`
followed by one call of `hideLoading` leave exactly `n - 1` nodes of class
`loading-overlay` and a body without the class `loading`. -/
theorem loading_overlay_stacks (doc : Document) (n : Nat) (hn : 1 ≤ n)
    (h0 : doc.querySelectorAll DOM.loadingOverlay = []) :
    ((hideLoading (showLoading^[n] doc)).querySelectorAll DOM.loadingOverlay).length = n - 1 ∧
    "loading" ∉ (hideLoading (showLoading^[n] doc)).bodyClassList := by
  obtain ⟨m, rfl⟩ : ∃ m, n = m + 1 := ⟨n - 1, by omega⟩
  have h0' : Nodes.select DOM.loadingOverlay [] doc.nodes = [] := h0
  have hnodes := (showLoading_iterate doc (m + 1)).1
  have hsel : Nodes.select DOM.loadingOverlay [] (showLoading^[m + 1] doc).nodes =
      ((List.range (m + 1)).map (fun i => [i])).map (shift doc.nodes.length) := by
    rw [hnodes, Nodes.select_append_of_none _ _ _ _ h0', select_overlay_copies]
  have hrem : Nodes.remove (Nodes.copies loadingOverlayNode (m + 1)) [0] =
      Nodes.copies loadingOverlayNode m := by
    simp [Nodes.copies, loadingOverlayNode, Nodes.single, Nodes.append, Nodes.remove]
  obtain ⟨h1, h2⟩ := hideLoading_nodes (showLoading^[m + 1] doc)
  constructor
  · have hhead : (Nodes.select DOM.loadingOverlay [] (showLoading^[m + 1] doc).nodes).head? =
        some [0 + doc.nodes.length] := by
      rw [hsel]
      simp [List.range_succ_eq_map, shift]
    rw [hhead] at h1
    simp only [Document.querySelectorAll, h1, hnodes, Nodes.remove_append, hrem]
    rw [Nodes.select_append_of_none _ _ _ _ h0', select_overlay_copies]
    simp
  · rw [h2]
    simp [classListRemove]

/-- C3, witness: two calls of `showLoading` and one of `hideLoading` on the
filter form leave one overlay node. -/
theorem loading_overlay_stacks_witness :
    ((hideLoading (showLoading^[2] (priceForm "1" "2"))).querySelectorAll
        DOM.loadingOverlay).length = 2 - 1 ∧
    "loading" ∉ (hideLoading (showLoading^[2] (priceForm "1" "2"))).bodyClassList :=
  loading_overlay_stacks (priceForm "1" "2") 2 (by decide) (by decide)

/-! ### `clearFilters` -/

theorem clearInput_eq_assign (fallback : Path → String) :
    clearInput fallback = fun d p => d.assign p (cleared (fallback p)) := by
  funext d p
  unfold clearInput Document.assign Document.prop
  by_cases c : (d.nodes.elementAt p).bind (fun e => some e.type) = some "checkbox"
  · rw [if_pos c]
    congr 1
    apply Nodes.update_congr
    intro e he
    rw [he] at c
    simp at c
    simp [cleared, c]
  · rw [if_neg c]
    congr 1
    apply Nodes.update_congr
    intro e he
    rw [he] at c
    simp at c
    simp [cleared, c]

theorem cleared_idem (fallback : String) (e : Element) :
    cleared fallback (cleared fallback e) = cleared fallback e := by
  unfold cleared valueAfterClear
  by_cases h : e.type = "checkbox" <;> simp [h]

theorem cleared_key (fallback : String) (e : Element) : (cleared fallback e).key = e.key := by
  unfold cleared
  split <;> rfl

theorem cleared_type (fallback : String) (e : Element) :
    (cleared fallback e).type = e.type := by
  unfold cleared
  split <;> rfl

/-- C4 (as amended): `clearFilters` leaves every checkbox inside the first
form unchecked and every other input or select inside it with the value its
type makes of the empty string: the empty string itself, except on a range
or color input, which holds the replacement of its value sanitization;
every other element of the page is as it was. Then, unless a control of the
form hides `form.submit`, exactly one `submit` call is recorded, on that form
as cleared, and nothing is thrown; where a control does hide it, the call
throws and nothing is submitted. On a page without a form nothing is changed
and nothing is submitted. -/
theorem clearFilters_resets (fallback : Path → String) (doc : Document) :
    (∀ form, doc.querySelector DOM.form = some form →
      (∀ q, (clearFilters fallback doc).nodes.elementAt q =
        (doc.nodes.elementAt q).map (fun e =>
          if form <+: q ∧ q ≠ form ∧ (e.key.tag = "input" ∨ e.key.tag = "select")
          then (if e.type = "checkbox" then { e with checked := false }
            else { e with value := some (valueAfterClear (fallback q) e) })
          else e)) ∧
      (doc.submitShadowed form = false →
        (∃ f, (clearFilters fallback doc).nodes.get? form = some f ∧
          (clearFilters fallback doc).submitted = doc.submitted ++ [f]) ∧
        (clearFilters fallback doc).uncaught = doc.uncaught) ∧
      (doc.submitShadowed form = true →
        (clearFilters fallback doc).submitted = doc.submitted ∧
        (clearFilters fallback doc).uncaught =
          doc.uncaught ++ ["TypeError: form.submit is not a function"]) ∧
      (clearFilters fallback doc).bodyClassList = doc.bodyClassList) ∧
    (doc.querySelector DOM.form = none → clearFilters fallback doc = doc) := by
  constructor
  · intro form hform
    obtain ⟨ef, hef, _⟩ := Document.querySelector_simple doc
      (fun k => decide (k.tag = "form")) form hform
    have hcf : clearFilters fallback doc =
        Document.submit ((doc.querySelectorAllIn form inputOrSelect).foldl
          (fun d p => d.assign p (cleared (fallback p))) doc) form := by
      unfold clearFilters
      simp only [hform, clearInput_eq_assign]
    have hfold := fun q => Document.foldl_assign (fun p => cleared (fallback p))
      (fun p e => cleared_idem (fallback p) e)
      (doc.querySelectorAllIn form inputOrSelect) doc q
    have hsh : Document.submitShadowed ((doc.querySelectorAllIn form inputOrSelect).foldl
        (fun d p => d.assign p (cleared (fallback p))) doc) form =
        doc.submitShadowed form :=
      Document.submitShadowed_foldl (fun p => cleared (fallback p))
        (fun p e => cleared_key (fallback p) e) (fun p e => cleared_type (fallback p) e) _ _ _
    have hnodes : (clearFilters fallback doc).nodes =
        ((doc.querySelectorAllIn form inputOrSelect).foldl
          (fun d p => d.assign p (cleared (fallback p))) doc).nodes := by
      rw [hcf]
      unfold Document.submit
      split <;> rfl
    have hall : ∀ q, (clearFilters fallback doc).nodes.elementAt q =
        (doc.nodes.elementAt q).map (fun e =>
          if form <+: q ∧ q ≠ form ∧ (e.key.tag = "input" ∨ e.key.tag = "select")
          then cleared (fallback q) e else e) := by
      intro q
      rw [hnodes, (hfold q).1]
      rcases he : doc.nodes.elementAt q with _ | e
      · simp
      · have hmem := Document.mem_querySelectorAllIn doc form
          (fun k => decide (k.tag = "input") || decide (k.tag = "select")) q ef hef
        have hmem' : q ∈ doc.querySelectorAllIn form inputOrSelect ↔
            (form <+: q ∧ q ≠ form ∧ (e.key.tag = "input" ∨ e.key.tag = "select")) := by
          rw [show inputOrSelect = (fun _ k => decide (k.tag = "input") ||
            decide (k.tag = "select")) from rfl, hmem, he]
          simp
        by_cases hin : q ∈ doc.querySelectorAllIn form inputOrSelect
        · simp [hin, hmem'.1 hin]
        · have : ¬ (form <+: q ∧ q ≠ form ∧
              (e.key.tag = "input" ∨ e.key.tag = "select")) :=
            fun h => hin (hmem'.2 h)
          simp [hin, this]
    refine ⟨?_, ?_, ?_, ?_⟩
    · intro q
      rw [hall q]
      rfl
    · intro hs
      have hf := hall form
      rw [hef] at hf
      simp only [ne_eq, not_true_eq_false, false_and, and_false, if_false,
        Option.map_some'] at hf
      obtain ⟨k, hk⟩ := Nodes.elementAt_some_get? _ _ _ hf
      rw [hnodes] at hk
      refine ⟨⟨Node.element ef k, by rw [hnodes]; exact hk, ?_⟩, ?_⟩
      · rw [hcf]
        unfold Document.submit
        rw [hsh, hs]
        simp only [Bool.false_eq_true, if_false, hk, (hfold form).2.1]
        rfl
      · rw [hcf]
        unfold Document.submit
        rw [hsh, hs]
        simp only [Bool.false_eq_true, if_false]
        exact (hfold form).2.2.2
    · intro hs
      rw [hcf]
      unfold Document.submit
      rw [hsh, hs]
      simp only [if_true]
      exact ⟨(hfold form).2.1, by rw [(hfold form).2.2.2]⟩
    · rw [hcf]
      unfold Document.submit
      split
      · exact (hfold form).2.2.1
      · exact (hfold form).2.2.1
  · intro h
    unfold clearFilters
    simp [h]

/-- C4, witness: a form with one checked checkbox and one filled text input
ends with the checkbox unchecked, the text input empty and one submit call,
and the search box outside the form keeps its value. -/
theorem clearFilters_resets_witness :
    ((clearFilters sliderFallback filterPage).nodes.elementAt [1, 0]).map
      (fun e => e.checked) = some false ∧
    ((clearFilters sliderFallback filterPage).nodes.elementAt [1, 1]).bind
      (fun e => e.value) = some "" ∧
    ((clearFilters sliderFallback filterPage).nodes.elementAt [0]).bind
      (fun e => e.value) = some "lamp" ∧
    (clearFilters sliderFallback filterPage).submitted.length = 1 ∧
    (clearFilters sliderFallback filterPage).uncaught = [] := by
  obtain ⟨hall, hsub, _, _⟩ := (clearFilters_resets sliderFallback filterPage).1 [1]
    (by decide)
  obtain ⟨⟨f, _, hsub⟩, hun⟩ := hsub (by decide)
  refine ⟨?_, ?_, ?_, ?_, ?_⟩
  · rw [hall [1, 0]]
    decide
  · rw [hall [1, 1]]
    decide
  · rw [hall [0]]
    decide
  · rw [hsub]
    rfl
  · rw [hun]
    rfl

/-- C4, counterexample: in a form with a range input at "70" and a color
input at "#ff0000", `clearFilters` leaves the range input at "50" and the
color input at "#000000", not at the empty string; and in a form whose submit
button is named "submit" it submits nothing and ends by throwing. -/
theorem clearFilters_range_color_counterexample :
    sliderPage.querySelector DOM.form = some [0] ∧
    ((clearFilters sliderFallback sliderPage).nodes.elementAt [0, 0]).map
      (fun e => (e.key.tag, e.type, e.value)) = some ("input", "range", some "50") ∧
    ((clearFilters sliderFallback sliderPage).nodes.elementAt [0, 1]).map
      (fun e => (e.key.tag, e.type, e.value)) = some ("input", "color", some "#000000") ∧
    namedSubmitPage.querySelector DOM.form = some [0] ∧
    (clearFilters sliderFallback namedSubmitPage).submitted = [] ∧
    (clearFilters sliderFallback namedSubmitPage).uncaught =
      ["TypeError: form.submit is not a function"] := by
  decide

/-! ### `changeMainImage` -/

theorem marked_idem (resolve : String → String) (url : String) (e : Element) :
    marked resolve url (marked resolve url e) = marked resolve url e := by
  simp [marked, readSrc]

/-- C5: on a page with a `#mainImage` element, `changeMainImage(url)` sets
the `src` of the main image to `url` and gives every `.thumbnail-img`
element the border colour `#007bff` when reading its `src` gives exactly
`url`, and `transparent` otherwise. Reading `src` gives the resolved URL, so
a thumbnail is marked when `url` is the serialised absolute URL of its
image, as on the first sample; with the relative "b.jpg" on the page
`http://shop.example/products/1` the thumbnail whose `src` attribute is
"b.jpg", like that of the main image, is left `transparent`. -/
theorem changeMainImage_relative_url :
    (∀ (resolve : String → String) (url : String) (doc : Document) (main : Path),
      doc.querySelector DOM.mainImage = some main →
      (changeMainImage resolve url doc).prop main Element.src = some url ∧
      ∀ q e, doc.nodes.elementAt q = some e → "thumbnail-img" ∈ e.key.classList →
        ∃ e', (changeMainImage resolve url doc).nodes.elementAt q = some e' ∧
          e'.src = (if q = main then some url else e.src) ∧
          e'.borderColor =
            (if readSrc resolve e' = some url then "#007bff" else "transparent")) ∧
    ((changeMainImage shopResolve "http://shop.example/products/b.jpg"
        (galleryPage "a.jpg" "a.jpg" "b.jpg")).nodes.elementAt [2]).map
      (fun e => e.borderColor) = some "#007bff" ∧
    ((changeMainImage shopResolve "b.jpg"
        (galleryPage "a.jpg" "a.jpg" "b.jpg")).nodes.elementAt [0]).map
      (fun e => e.src) = some (some "b.jpg") ∧
    ((changeMainImage shopResolve "b.jpg"
        (galleryPage "a.jpg" "a.jpg" "b.jpg")).nodes.elementAt [1]).map
      (fun e => (e.src, e.borderColor)) = some (some "a.jpg", "transparent") ∧
    ((changeMainImage shopResolve "b.jpg"
        (galleryPage "a.jpg" "a.jpg" "b.jpg")).nodes.elementAt [2]).map
      (fun e => (e.src, e.borderColor)) = some (some "b.jpg", "transparent") := by
  refine ⟨?_, by decide, by decide, by decide, by decide⟩
  intro resolve url doc main hmain
  obtain ⟨em, hem, _⟩ := Document.querySelector_simple doc
    (fun k => decide (k.id = "mainImage")) main hmain
  have hsel : (doc.assign main (fun e => { e with src := some url })).querySelectorAll
      thumbnailImg = doc.querySelectorAll thumbnailImg := by
    unfold Document.querySelectorAll Document.assign
    exact Nodes.select_update_id thumbnailImg (fun e => { e with src := some url })
      (fun _ => rfl) [] doc.nodes main
  have hcm : changeMainImage resolve url doc =
      (doc.querySelectorAll thumbnailImg).foldl (fun d p => d.assign p (marked resolve url))
        (doc.assign main (fun e => { e with src := some url })) := by
    unfold changeMainImage
    simp only [hmain, hsel]
    rfl
  have hat : ∀ q, (changeMainImage resolve url doc).nodes.elementAt q =
      (if q ∈ doc.querySelectorAll thumbnailImg then
        ((doc.assign main (fun e => { e with src := some url })).nodes.elementAt q).map
          (marked resolve url)
       else (doc.assign main (fun e => { e with src := some url })).nodes.elementAt q) := by
    intro q
    rw [hcm]
    exact (Document.foldl_assign (fun _ => marked resolve url)
      (fun _ e => marked_idem resolve url e) _ _ q).1
  constructor
  · unfold Document.prop
    rw [hat main]
    simp only [Document.assign, Nodes.elementAt_update_id, if_true, hem]
    split <;> simp [marked]
  · intro q e he hth
    have hin : q ∈ doc.querySelectorAll thumbnailImg := by
      apply (Nodes.mem_select_simple
        (fun k => decide ("thumbnail-img" ∈ k.classList)) [] doc.nodes q).2
      exact ⟨e, he, by simpa using hth⟩
    rw [hat q]
    simp only [hin, if_true, Document.assign, Nodes.elementAt_update_id]
    by_cases hq : q = main
    · subst hq
      rw [hem] at he
      cases he
      simp [marked, hem, readSrc]
    · simp [hq, he, marked, readSrc]

/-! ### `calculateTotalPrice` -/

theorem foldl_addCost (doc : Document) (l : List Path) (z : Number) :
    l.foldl (addCost doc) z =
      ((l.filter (fun q => truthy (doc.prop q Element.value) &&
          truthy (doc.prop q Element.additionalCost))).map
        (fun q => parseFloat (toStr (doc.prop q Element.additionalCost)))).foldl add z := by
  induction l generalizing z with
  | nil => rfl
  | cons q l ih =>
    simp only [List.foldl_cons, List.filter_cons]
    by_cases h : (truthy (doc.prop q Element.value) &&
        truthy (doc.prop q Element.additionalCost)) = true
    · simp only [h, if_true, List.map_cons, List.foldl_cons]
      rw [ih]
      simp [addCost, h]
    · simp only [h, if_false]
      rw [ih]
      simp only [addCost, h]
      rfl

theorem calculateTotalPrice_text (doc : Document) (el : Path)
    (h : doc.querySelector DOM.totalPrice = some el) :
    (calculateTotalPrice doc).textContent el =
      "$" ++ toFixed (mul (add (basePrice doc) (totalAdditionalCost doc)) (quantity doc)) 2 := by
  obtain ⟨e, he, _⟩ := Document.querySelector_simple doc
    (fun k => decide (k.id = "totalPrice")) el h
  unfold calculateTotalPrice
  simp only [h]
  exact Document.textContent_setTextContent doc el _ e he

theorem basePrice_assign (doc : Document) (q : Path) (f : Element → Element)
    (hf : ∀ e, (f e).key = e.key) : basePrice (doc.assign q f) = basePrice doc := by
  unfold basePrice
  rw [Document.querySelector_assign doc _ q f hf]
  simp only [Document.textContent_assign]

theorem quantity_assign (doc : Document) (q : Path) (f : Element → Element)
    (hf : ∀ e, (f e).key = e.key) (hv : ∀ e, (f e).value = e.value) :
    quantity (doc.assign q f) = quantity doc := by
  unfold quantity
  rw [Document.querySelector_assign doc _ q f hf]
  have hfun : (fun el => (doc.assign q f).prop el Element.value) =
      (fun el => doc.prop el Element.value) := by
    funext el
    rw [Document.prop_assign]
    split
    · rename_i h
      subst h
      unfold Document.prop
      rcases doc.nodes.elementAt el with _ | e
      · rfl
      · simp [hv]
    · rfl
  rw [hfun]

theorem quantity_of_value (doc : Document) (qn : Path) (v : Option String)
    (hq : doc.querySelector DOM.quantity = some qn)
    (hv : doc.prop qn Element.value = v) :
    quantity doc = orElse (parseInt (toStr v)) one := by
  unfold quantity
  rw [hq]
  simp only [Option.some_bind, hv]

theorem totalAdditionalCost_congr (d1 d2 : Document)
    (hsel : d1.querySelectorAll customizationInputs = d2.querySelectorAll customizationInputs)
    (h : ∀ t q, addCost d1 t q = addCost d2 t q) :
    totalAdditionalCost d1 = totalAdditionalCost d2 := by
  unfold totalAdditionalCost
  rw [hsel]
  have : addCost d1 = addCost d2 := by
    funext t q
    exact h t q
  rw [this]

/-- C1 (as amended): on a page with a `#totalPrice` element,
`calculateTotalPrice` writes into it `$` followed by `toFixed(2)` of
`(base + costs) * quantity` in Number arithmetic, where `base` is the number
parsed from the `.price-display` text without its first `$`, 0 when that is
not a number or there is no such element, `costs` adds, in document order from
0, the parsed `additionalCost` of every customization input whose value and
whose `additionalCost` attribute are both non-empty, and `quantity` is the
integer parsed from `#quantity`, 1 when that is not a number, is 0 or there is
no such value; and whenever that total is finite and below `10 ^ 21` the text
is an optional minus sign, digits, a point and exactly two digits. -/
theorem calculateTotalPrice_writes (doc : Document) (el : Path)
    (h : doc.querySelector DOM.totalPrice = some el) :
    (calculateTotalPrice doc).textContent el =
      "$" ++ toFixed (mul
        (add
          (orElse (parseFloat (toStr ((doc.querySelector priceDisplay).map
            (fun pd => String.mk ((doc.textContent pd).data.erase '$'))))) zero)
          ((((doc.querySelectorAll customizationInputs).filter
              (fun q => truthy (doc.prop q Element.value) &&
                truthy (doc.prop q Element.additionalCost))).map
            (fun q => parseFloat (toStr (doc.prop q Element.additionalCost)))).foldl add zero))
        (orElse (parseInt (toStr ((doc.querySelector DOM.quantity).bind
          (fun q => doc.prop q Element.value)))) one)) 2 ∧
    ∀ neg N, mul (add (basePrice doc) (totalAdditionalCost doc)) (quantity doc) =
        Number.fin neg N → N < 10 ^ 21 * unit →
      ∃ whole frac : List Char,
        (calculateTotalPrice doc).textContent el =
          String.mk ('$' :: ((if neg ∧ N ≠ 0 then ['-'] else []) ++ (whole ++ '.' :: frac))) ∧
        whole ≠ [] ∧ frac.length = 2 ∧
        (∀ c ∈ whole, c.isDigit = true) ∧ ∀ c ∈ frac, c.isDigit = true := by
  have hwrite := calculateTotalPrice_text doc el h
  constructor
  · rw [hwrite]
    unfold basePrice totalAdditionalCost quantity
    rw [foldl_addCost]
  · intro neg N hN hlt
    obtain ⟨whole, frac, hfix, h1, h2, h3, h4⟩ := toFixed_two_decimals neg N hlt
    refine ⟨whole, frac, ?_, h1, h2, h3, h4⟩
    rw [hwrite, hN, hfix]
    rfl

/-- C1, witness: base text "$19.99", one checked customization with
additional cost "5" and quantity "2" give the total "$49.98". -/
theorem calculateTotalPrice_writes_witness :
    (productPage "$19.99" true "5" "2").querySelector DOM.totalPrice = some [3] ∧
    (calculateTotalPrice (productPage "$19.99" true "5" "2")).textContent [3] = "$49.98" := by
  have h := (calculateTotalPrice_writes (productPage "$19.99" true "5" "2") [3]
    (by decide)).1
  refine ⟨by decide, ?_⟩
  rw [h]
  decide!

/-- C1, counterexample: with base text "$19.99", no additional cost and
quantity "0" the claim read literally gives "$0.00", and the script writes
"$19.99". -/
theorem calculateTotalPrice_quantity_zero_counterexample :
    (productPage "$19.99" false "" "0").querySelector DOM.totalPrice = some [3] ∧
    specTotalText "$19.99" [] "0" = "$0.00" ∧
    (calculateTotalPrice (productPage "$19.99" false "" "0")).textContent [3] = "$19.99" ∧
    (calculateTotalPrice (productPage "$19.99" false "" "0")).textContent [3] ≠
      specTotalText "$19.99" [] "0" := by
  decide!

/-- C8: an input whose value is empty or undefined contributes nothing,
whatever its additional cost is; but an unchecked checkbox still has its
value ("on" by default), so line 99 adds its cost: with base "$19.99" and
quantity "1" the unchecked checkbox with additional cost "5" gives "$24.99",
where the same page without that cost gives "$19.99". -/
theorem unchecked_checkbox_adds_cost :
    (∀ (doc : Document) (q el : Path) (c : Option String),
      truthy (doc.prop q Element.value) = false →
      doc.querySelector DOM.totalPrice = some el →
      (calculateTotalPrice (doc.assign q (fun e => { e with additionalCost := c }))).textContent
        el = (calculateTotalPrice doc).textContent el) ∧
    ((productPage "$19.99" false "5" "1").nodes.elementAt [1, 0]).map
      (fun e => (e.type, e.checked, e.value)) = some ("checkbox", false, some "on") ∧
    (calculateTotalPrice (productPage "$19.99" false "5" "1")).textContent [3] = "$24.99" ∧
    (calculateTotalPrice (productPage "$19.99" false "" "1")).textContent [3] = "$19.99" := by
  refine ⟨?_, by decide, by decide!, by decide!⟩
  intro doc q el c hv ht
  have hk : ∀ e : Element, ({ e with additionalCost := c } : Element).key = e.key :=
    fun _ => rfl
  rw [calculateTotalPrice_text _ el (by rw [Document.querySelector_assign _ _ _ _ hk]; exact ht),
    calculateTotalPrice_text doc el ht, basePrice_assign _ _ _ hk,
    quantity_assign _ _ _ hk (fun _ => rfl)]
  congr 4
  apply totalAdditionalCost_congr
  · exact Document.querySelectorAll_assign _ _ _ _ hk
  · intro t p
    unfold addCost
    simp only [Document.prop_assign]
    by_cases hp : p = q
    · subst hp
      have hv' : truthy (doc.prop p (fun e => ({ e with additionalCost := c } : Element).value))
          = false := hv
      simp [hv, hv']
    · simp [hp]

/-- C9: a missing or unparseable base price counts as 0 and a non-numeric
quantity as 1 (price text "n/a", cost "5", quantity "abc" give "$5.00"), but
an unparseable additional cost is added as NaN: base "$19.99", a checked
customization with additional cost "abc" and quantity "2" give "$NaN". -/
theorem unparseable_cost_gives_nan :
    (calculateTotalPrice (productPage "n/a" true "5" "abc")).textContent [3] = "$5.00" ∧
    parseFloat "abc" = Number.nan ∧
    (calculateTotalPrice (productPage "$19.99" true "abc" "2")).textContent [3] = "$NaN" := by
  decide!

/-- C10 (as amended): on a page with a `#totalPrice` element, a `#quantity`
value that parses to 0 counts as 1 exactly as a missing or non-numeric one
does, so the total written is the unit price times 1 (it is "$0.00" only
when that product rounds to 0.00); the total written for quantity "0" equals
the one written for quantity "1"; and a quantity that parses to a negative
number is kept and multiplies the unit price. -/
theorem quantity_zero_counts_as_one (doc : Document) (el : Path)
    (ht : doc.querySelector DOM.totalPrice = some el) :
    (toBoolean (parseInt (toStr ((doc.querySelector DOM.quantity).bind
        (fun q => doc.prop q Element.value)))) = false →
      (calculateTotalPrice doc).textContent el =
        "$" ++ toFixed (mul (add (basePrice doc) (totalAdditionalCost doc)) one) 2) ∧
    (∀ qn, doc.querySelector DOM.quantity = some qn →
      (calculateTotalPrice (doc.assign qn (fun e => { e with value := some "0" }))).textContent
          el =
        (calculateTotalPrice (doc.assign qn (fun e => { e with value := some "1" }))).textContent
          el) ∧
    (∀ m, m ≠ 0 →
      parseInt (toStr ((doc.querySelector DOM.quantity).bind
        (fun q => doc.prop q Element.value))) = Number.fin true m →
      (calculateTotalPrice doc).textContent el =
        "$" ++ toFixed (mul (add (basePrice doc) (totalAdditionalCost doc))
          (Number.fin true m)) 2) := by
  have hq0 : quantity doc = orElse (parseInt (toStr ((doc.querySelector DOM.quantity).bind
      (fun q => doc.prop q Element.value)))) one := rfl
  refine ⟨?_, ?_, ?_⟩
  · intro h0
    rw [calculateTotalPrice_text doc el ht, hq0]
    simp [orElse, h0]
  · intro qn hq
    obtain ⟨e, he, _⟩ := Document.querySelector_simple doc
      (fun k => decide (k.id = "quantity")) qn hq
    have key : ∀ v : String, v ≠ "" → ∀ w, orElse (parseInt v) one = w →
        (calculateTotalPrice (doc.assign qn (fun e => { e with value := some v }))).textContent
          el = "$" ++ toFixed (mul (add (basePrice doc)
            (totalAdditionalCost (doc.assign qn (fun e => { e with value := some "1" })))) w)
            2 := by
      intro v hv w hw
      have hk : ∀ e : Element, ({ e with value := some v } : Element).key = e.key :=
        fun _ => rfl
      rw [calculateTotalPrice_text _ el
        (by rw [Document.querySelector_assign _ _ _ _ hk]; exact ht),
        basePrice_assign _ _ _ hk]
      have hqv : quantity (doc.assign qn (fun e => { e with value := some v })) = w := by
        rw [quantity_of_value _ qn (some v)
          (by rw [Document.querySelector_assign _ _ _ _ hk]; exact hq)
          (by rw [Document.prop_assign]; simp [Document.prop, he])]
        exact hw
      rw [hqv]
      congr 4
      apply totalAdditionalCost_congr
      · rw [Document.querySelectorAll_assign _ _ _ _ hk]
        exact (Document.querySelectorAll_assign doc customizationInputs qn
          (fun e => { e with value := some "1" }) (fun _ => rfl)).symm
      · intro t p
        unfold addCost
        simp only [Document.prop_assign]
        by_cases hp : p = qn
        · subst hp
          simp [Document.prop, he, truthy, hv]
        · simp [hp]
    rw [key "0" (by decide) one (by decide!), key "1" (by decide) one (by decide!)]
  · intro m hm hneg
    rw [calculateTotalPrice_text doc el ht, hq0, hneg]
    simp [orElse, toBoolean, hm]

/-- C10, witness: quantity "0" on the product page writes the unit price,
"$24.99", as quantity "1" does, and quantity "-3" writes "$-74.97". -/
theorem quantity_zero_counts_as_one_witness :
    (calculateTotalPrice (productPage "$19.99" true "5" "0")).textContent [3] = "$24.99" ∧
    (calculateTotalPrice (productPage "$19.99" true "5" "1")).textContent [3] = "$24.99" ∧
    (calculateTotalPrice (productPage "$19.99" true "5" "-3")).textContent [3] = "$-74.97" := by
  have h0 := (quantity_zero_counts_as_one (productPage "$19.99" true "5" "0") [3]
    (by decide)).1 (by decide!)
  have h3 := (quantity_zero_counts_as_one (productPage "$19.99" true "5" "-3") [3]
    (by decide)).2.2 (3 * unit) (by decide) (by decide!)
  refine ⟨?_, by decide!, ?_⟩
  · rw [h0]
    decide!
  · rw [h3]
    decide!

/-- C10, counterexample: with price text "$0.004" and quantity "0" the unit
price is not 0, and the total written is "$0.00". -/
theorem quantity_zero_tiny_price_counterexample :
    toBoolean (add (basePrice (productPage "$0.004" false "" "0"))
      (totalAdditionalCost (productPage "$0.004" false "" "0"))) = true ∧
    (calculateTotalPrice (productPage "$0.004" false "" "0")).textContent [3] = "$0.00" := by
  decide!

/-! ### The cart count -/

theorem updateCartCount_text (doc : Document) (el : Path)
    (h : doc.querySelector DOM.cartCount = some el) :
    (updateCartCount doc).textContent el =
      JS.toString (add (orElse (parseInt (doc.textContent el)) zero) one) := by
  obtain ⟨e, he, _⟩ := Document.querySelector_simple doc
    (fun k => decide ("cart-count" ∈ k.classList)) el h
  unfold updateCartCount
  simp only [h]
  exact Document.textContent_setTextContent doc el _ e he

/-- C6 (as amended): on a page with a `.cart-count` element,
`updateCartCount` replaces the text of that element by the decimal text of
`n + 1` when the current text decodes to an integer `n` with
`-2 ^ 53 ≤ n < 2 ^ 53`, and by "1" when the current text decodes to no
number or to zero; no element outside that element is changed, nor are its
own properties, the body classes or the submitted forms; and `addToCart`,
whatever its arguments, shows its message and then calls `updateCartCount`
once. -/
theorem updateCartCount_increments (doc : Document) (el : Path)
    (h : doc.querySelector DOM.cartCount = some el) :
    (∀ n : Int, -(2 ^ 53) ≤ n → n < 2 ^ 53 → parseInt (doc.textContent el) = ofInt n →
      (updateCartCount doc).textContent el = decimalText (n + 1)) ∧
    (toBoolean (parseInt (doc.textContent el)) = false →
      (updateCartCount doc).textContent el = "1") ∧
    (∀ q, (q = el ∨ ¬ el <+: q) →
      (updateCartCount doc).nodes.elementAt q = doc.nodes.elementAt q) ∧
    (updateCartCount doc).bodyClassList = doc.bodyClassList ∧
    (updateCartCount doc).submitted = doc.submitted ∧
    (∀ (α β γ : Type) (productId : α) (quantity : β) (customizations : γ),
      addToCart productId quantity customizations doc =
        updateCartCount (showMessage "Product added to cart!" "success" doc)) := by
  have htext := updateCartCount_text doc el h
  have hdoc : updateCartCount doc = doc.setTextContent el
      (JS.toString (add (orElse (parseInt (doc.textContent el)) zero) one)) := by
    unfold updateCartCount
    simp only [h]
  refine ⟨?_, ?_, ?_, ?_, ?_, ?_⟩
  · intro n h1 h2 hp
    rw [htext, hp, orElse_ofInt_zero n h1 (le_of_lt h2), add_ofInt_one n h1 h2]
    exact toString_ofInt (n + 1) (by omega) (by omega)
  · intro hb
    rw [htext]
    have h1 : orElse (parseInt (doc.textContent el)) zero = zero := by
      simp only [orElse, hb]
      rfl
    rw [h1]
    decide!
  · intro q hq
    rw [hdoc]
    unfold Document.setTextContent
    rcases hq with rfl | hq
    · rw [Nodes.elementAt_update_self]
      rcases doc.nodes.elementAt q with _ | e <;> rfl
    · exact Nodes.elementAt_update_outside _ _ _ _ _ hq
  · rw [hdoc]
    rfl
  · rw [hdoc]
    rfl
  · intro α β γ productId quantity customizations
    rfl

/-- C6, witness: a cart count of "41" becomes "42", and the heading of the
page keeps its element. -/
theorem updateCartCount_increments_witness :
    (updateCartCount (cartPage "41")).textContent [0, 1] = decimalText (41 + 1) ∧
    decimalText (41 + 1) = "42" ∧
    (updateCartCount (cartPage "41")).nodes.elementAt [1, 0] =
      (cartPage "41").nodes.elementAt [1, 0] :=
  ⟨(updateCartCount_increments (cartPage "41") [0, 1] (by decide)).1 41 (by decide)
      (by decide) (by decide!),
    by decide,
    (updateCartCount_increments (cartPage "41") [0, 1] (by decide)).2.2.1 [1, 0]
      (Or.inr (by decide))⟩

/-- C6, counterexample: the text "9007199254740992" decodes to the integer
`2 ^ 53`, the decimal text of `2 ^ 53 + 1` is "9007199254740993", and
`updateCartCount` leaves the text at "9007199254740992". -/
theorem updateCartCount_large_counterexample :
    (cartPage "9007199254740992").querySelector DOM.cartCount = some [0, 1] ∧
    parseInt ((cartPage "9007199254740992").textContent [0, 1]) = ofInt (2 ^ 53) ∧
    decimalText (2 ^ 53 + 1) = "9007199254740993" ∧
    (updateCartCount (cartPage "9007199254740992")).textContent [0, 1] =
      "9007199254740992" ∧
    (updateCartCount (cartPage "9007199254740992")).textContent [0, 1] ≠
      decimalText (2 ^ 53 + 1) := by
  decide!

end Marketplace
